import Mathlib

/-!
# FlowBridge core: signal dispatcher, connection handle, signal hub

A shallow embedding of `Sources/FlowCore` (FlowSignal.h, FlowSignal.cpp, FlowHub.h,
FlowHub.cpp, FlowBridge.hpp) and the properties of it that the specification states.

Conventions of the embedding.

* `uint64_t` is a natural number; the one arithmetic operation on it, `next_id_++`,
  is taken modulo `2 ^ 64`.
* `std::unordered_map<ConnectionId, FlowSlotAny>` is the list of its entries in the
  map's iteration order.  Keys are unique in a real map; `emplace` and `erase` below
  keep them unique.  `erase` keeps the order of the entries that stay, as the standard
  requires.  Where a real map puts a new entry is unspecified; `emplace` below puts it
  last, and the statements that compare a map before and after an insertion are up to
  order.
* `std::any` is either empty or a value together with its runtime type.
* A callable that user code hands to the library is a name of type `Cb`; what calling
  it does is given by a function `call : Cb → StdAny → W → Outcome W` over a world `W`
  that user code can touch.  A call ends normally or with a fault (a C++ exception);
  the world it leaves behind is kept in both cases.
* `FlowSignal*` and `std::shared_ptr<FlowSignal>` are addresses into a heap of
  reference-counted cells; dereferencing an address whose cell has been destroyed is
  undefined behaviour and is reported as an error value.
* Locks are not modelled: every operation is one atomic step.
-/

namespace FlowCore

/-! ## Payloads and callables -/

/-- The type `ConnectionId` of FlowSignal.h: `uint64_t`. -/
abbrev ConnectionId := Nat

/-- Number of values of a `uint64_t`. -/
def UINT64_RANGE : Nat := 2 ^ 64

/-- The payload type `std::any`: empty, or a value `v` of runtime type `T`. -/
inductive StdAny (Ty : Type) (Val : Ty → Type) where
  | empty : StdAny Ty Val
  | holding (T : Ty) (v : Val T) : StdAny Ty Val

/-- The member `std::any::has_value`. -/
def StdAny.has_value {Ty : Type} {Val : Ty → Type} : StdAny Ty Val → Bool
  | .empty => false
  | .holding _ _ => true

/-- The member `std::any::type`: the runtime type of the held value, `none` standing for
`typeid(void)`, which is what an empty `std::any` reports. -/
def StdAny.type {Ty : Type} {Val : Ty → Type} : StdAny Ty Val → Option Ty
  | .empty => none
  | .holding T _ => some T

/-- A fault raised by a callable: a C++ exception leaving the call. -/
structure Fault where
  code : Nat
deriving DecidableEq, Repr

/-- Result of calling a user callable: the world it leaves and the fault it raised, if any. -/
structure Outcome (W : Type) where
  world : W
  fault : Option Fault

/-- The type `FlowSlotAny` of FlowSignal.h, `std::function<void(const std::any&)>`, by the two
ways the library comes to store one: a callable over `std::any` handed to `connect_any`, or
the lambda that `connect<T>` builds around a callable `s` over `const T&`. -/
inductive FlowSlotAny (Cb Ty : Type) where
  | any (c : Cb) : FlowSlotAny Cb Ty
  | typed (T : Ty) (s : Cb) : FlowSlotAny Cb Ty
deriving DecidableEq

/-- What invoking one stored slot did: the user callables it called (with their argument),
the world afterwards and the fault that left the slot, if any. -/
structure Invocation (Cb Ty : Type) (Val : Ty → Type) (W : Type) where
  calls : List (Cb × StdAny Ty Val)
  world : W
  fault : Option Fault

/-- Invoking a stored slot on a payload.  A slot given to `connect_any` is called as is.
The lambda of `connect<T>` (FlowSignal.h lines 54-58) calls `s` only
`if (a.has_value() && a.type() == typeid(T))`, passing the held value. -/
def FlowSlotAny.invoke {Cb Ty : Type} {Val : Ty → Type} {W : Type} [DecidableEq Ty]
    (call : Cb → StdAny Ty Val → W → Outcome W) :
    FlowSlotAny Cb Ty → StdAny Ty Val → W → Invocation Cb Ty Val W
  | .any c, a, w => ⟨[(c, a)], (call c a w).world, (call c a w).fault⟩
  | .typed T s, a, w =>
    if a.has_value && decide (a.type = some T) then
      ⟨[(s, a)], (call s a w).world, (call s a w).fault⟩
    else
      ⟨[], w, none⟩

/-! ## The dispatcher `FlowSignal` -/

/-- The class `FlowSignal`: the subscriber map `slots_` (entries in iteration order) and the
counter `next_id_`, which starts at 1.  The mutex is not modelled. -/
structure FlowSignal (Cb Ty : Type) where
  slots_ : List (ConnectionId × FlowSlotAny Cb Ty) := []
  next_id_ : ConnectionId := 1

/-- Keys of the subscriber map. -/
def FlowSignal.ids {Cb Ty : Type} (sig : FlowSignal Cb Ty) : List ConnectionId :=
  sig.slots_.map Prod.fst

/-- The call `slots_.emplace(id, slot)`: inserts unless the key is already present.  The
new entry is put last in iteration order. -/
def emplace {α : Type} (id : ConnectionId) (slot : α) (m : List (ConnectionId × α)) :
    List (ConnectionId × α) :=
  if id ∈ m.map Prod.fst then m else m ++ [(id, slot)]

/-- The call `slots_.erase(id)`: removes the entry with key `id`, if any. -/
def erase {α : Type} (id : ConnectionId) (m : List (ConnectionId × α)) :
    List (ConnectionId × α) :=
  m.filter (fun kv => decide (kv.1 ≠ id))

/-- The method `FlowSignal::connect_any` (FlowSignal.cpp lines 18-23):
`const auto id = next_id_++; slots_.emplace(id, std::move(slot)); return Connection{this, id}`.
Returns the identifier of the handle and the new dispatcher; the handle itself, which also
records `this`, is built by `Heap.connect_any`. -/
def FlowSignal.connect_any {Cb Ty : Type} (slot : FlowSlotAny Cb Ty) (sig : FlowSignal Cb Ty) :
    ConnectionId × FlowSignal Cb Ty :=
  (sig.next_id_,
    { slots_ := emplace sig.next_id_ slot sig.slots_,
      next_id_ := (sig.next_id_ + 1) % UINT64_RANGE })

/-- The method template `FlowSignal::connect<T>` (FlowSignal.h lines 52-59). -/
def FlowSignal.connect {Cb Ty : Type} (T : Ty) (s : Cb) (sig : FlowSignal Cb Ty) :
    ConnectionId × FlowSignal Cb Ty :=
  sig.connect_any (.typed T s)

/-- The method `FlowSignal::disconnect` (FlowSignal.cpp lines 25-28). -/
def FlowSignal.disconnect {Cb Ty : Type} (id : ConnectionId) (sig : FlowSignal Cb Ty) :
    FlowSignal Cb Ty :=
  { sig with slots_ := erase id sig.slots_ }

/-- The method `FlowSignal::disconnectAll` (FlowSignal.cpp lines 30-33). -/
def FlowSignal.disconnectAll {Cb Ty : Type} (sig : FlowSignal Cb Ty) : FlowSignal Cb Ty :=
  { sig with slots_ := [] }

/-- The vector `copy` that `emit_any` fills under the lock (FlowSignal.cpp lines 36-41). -/
def FlowSignal.snapshot {Cb Ty : Type} (sig : FlowSignal Cb Ty) : List (FlowSlotAny Cb Ty) :=
  sig.slots_.map Prod.snd

/-- What one emission did: the stored slots the loop invoked, in order, each with the
payload it got; the user callables called; the final world; the fault that left `emit_any`,
if any. -/
structure Delivery (Cb Ty : Type) (Val : Ty → Type) (W : Type) where
  invoked : List (FlowSlotAny Cb Ty × StdAny Ty Val)
  calls : List (Cb × StdAny Ty Val)
  world : W
  fault : Option Fault

/-- The loop `for (auto& s : copy) s(data);` (FlowSignal.cpp line 42).  Nothing catches a
fault, so the first one ends the loop and leaves `emit_any`. -/
def deliver {Cb Ty : Type} {Val : Ty → Type} {W : Type} [DecidableEq Ty]
    (call : Cb → StdAny Ty Val → W → Outcome W) (data : StdAny Ty Val) :
    List (FlowSlotAny Cb Ty) → W → Delivery Cb Ty Val W
  | [], w => ⟨[], [], w, none⟩
  | s :: rest, w =>
    match (s.invoke call data w).fault with
    | some e => ⟨[(s, data)], (s.invoke call data w).calls, (s.invoke call data w).world, some e⟩
    | none =>
      ⟨(s, data) :: (deliver call data rest (s.invoke call data w).world).invoked,
        (s.invoke call data w).calls ++
          (deliver call data rest (s.invoke call data w).world).calls,
        (deliver call data rest (s.invoke call data w).world).world,
        (deliver call data rest (s.invoke call data w).world).fault⟩

/-- The method `FlowSignal::emit_any` (FlowSignal.cpp lines 35-43) on the dispatcher `sig`,
in world `w`: snapshot, then the loop. -/
def FlowSignal.emit_any {Cb Ty : Type} {Val : Ty → Type} {W : Type} [DecidableEq Ty]
    (call : Cb → StdAny Ty Val → W → Outcome W) (sig : FlowSignal Cb Ty)
    (data : StdAny Ty Val) (w : W) : Delivery Cb Ty Val W :=
  deliver call data sig.snapshot w

/-- The method template `FlowSignal::emit<T>` (FlowSignal.h lines 66-67):
`emit_any(std::any(data))`. -/
def FlowSignal.emit {Cb Ty : Type} {Val : Ty → Type} {W : Type} [DecidableEq Ty]
    (call : Cb → StdAny Ty Val → W → Outcome W) (sig : FlowSignal Cb Ty)
    (T : Ty) (v : Val T) (w : W) : Delivery Cb Ty Val W :=
  sig.emit_any call (.holding T v) w

/-- A call on a dispatcher that changes its map or counter. -/
inductive Op (Cb Ty : Type) where
  | connect_any (slot : FlowSlotAny Cb Ty) : Op Cb Ty
  | disconnect (id : ConnectionId) : Op Cb Ty
  | disconnectAll : Op Cb Ty

/-- Number of `connect_any` calls in a sequence of calls. -/
def connects {Cb Ty : Type} : List (Op Cb Ty) → Nat
  | [] => 0
  | .connect_any _ :: ops => connects ops + 1
  | .disconnect _ :: ops => connects ops
  | .disconnectAll :: ops => connects ops

/-- The dispatcher after a sequence of calls. -/
def FlowSignal.exec {Cb Ty : Type} : List (Op Cb Ty) → FlowSignal Cb Ty → FlowSignal Cb Ty
  | [], sig => sig
  | .connect_any slot :: ops, sig => FlowSignal.exec ops (sig.connect_any slot).2
  | .disconnect id :: ops, sig => FlowSignal.exec ops (sig.disconnect id)
  | .disconnectAll :: ops, sig => FlowSignal.exec ops sig.disconnectAll

/-- The identifiers that the `connect_any` calls of a sequence of calls hand out, in the
order in which they are handed out. -/
def FlowSignal.issued {Cb Ty : Type} : List (Op Cb Ty) → FlowSignal Cb Ty → List ConnectionId
  | [], _ => []
  | .connect_any slot :: ops, sig =>
    (sig.connect_any slot).1 :: FlowSignal.issued ops (sig.connect_any slot).2
  | .disconnect id :: ops, sig => FlowSignal.issued ops (sig.disconnect id)
  | .disconnectAll :: ops, sig => FlowSignal.issued ops sig.disconnectAll

/-! ## Memory: dispatchers made by `std::make_shared`, raw and shared pointers -/

/-- An address of a dispatcher object.  A null pointer is `none : Option Addr`. -/
abbrev Addr := Nat

/-- A dispatcher made by `std::make_shared<FlowSignal>()` together with the use count of its
control block: the number of `std::shared_ptr` that own it. -/
structure SharedCell (Cb Ty : Type) where
  use_count : Nat
  obj : FlowSignal Cb Ty

/-- The dispatchers that exist: an address is mapped to its cell, or to `none` when no
dispatcher lives there (never made, or destroyed). -/
abbrev Heap (Cb Ty : Type) := Addr → Option (SharedCell Cb Ty)

/-- Undefined behaviour: a member function called through a pointer to a destroyed object. -/
inductive Undefined where
  | useAfterFree (p : Addr) : Undefined
deriving DecidableEq, Repr

/-- Copying a `std::shared_ptr`: one more owner. -/
def Heap.retain {Cb Ty : Type} (p : Addr) (h : Heap Cb Ty) : Heap Cb Ty :=
  match h p with
  | some cell => Function.update h p (some { cell with use_count := cell.use_count + 1 })
  | none => h

/-- Destroying a `std::shared_ptr`: one owner fewer, and the object is destroyed with its
last owner. -/
def Heap.release {Cb Ty : Type} (p : Addr) (h : Heap Cb Ty) : Heap Cb Ty :=
  match h p with
  | some cell =>
    if cell.use_count ≤ 1 then Function.update h p none
    else Function.update h p (some { cell with use_count := cell.use_count - 1 })
  | none => h

/-- The call `p->disconnect(id)` through a pointer `p`. -/
def Heap.disconnect {Cb Ty : Type} (p : Addr) (id : ConnectionId) (h : Heap Cb Ty) :
    Except Undefined (Heap Cb Ty) :=
  match h p with
  | some cell => .ok (Function.update h p (some { cell with obj := cell.obj.disconnect id }))
  | none => .error (.useAfterFree p)

/-! ## The connection handle `FlowSignal::Connection` -/

/-- The class `FlowSignal::Connection` (FlowSignal.h lines 24-47): a raw pointer `owner_`
(`FlowSignal*`, null by default) and the identifier `id_` (0 by default).  The default
values of the fields are those of `Connection() = default`. -/
structure Connection where
  owner_ : Option Addr := none
  id_ : ConnectionId := 0
deriving DecidableEq, Repr

/-- The test `owner_ && id_` of `reset`: the handle is active. -/
def Connection.active (c : Connection) : Bool :=
  c.owner_.isSome && decide (c.id_ ≠ 0)

/-- The handle holds no dispatcher reference and the identifier 0. -/
def Connection.inert (c : Connection) : Bool :=
  c.owner_.isNone && decide (c.id_ = 0)

/-- The call `p->connect_any(slot)` through a pointer `p`: the handle is
`Connection{this, id}`.  It reaches the caller by value; the move that may take place on
the way hands over both fields and leaves an inert temporary, whose destructor does
nothing. -/
def Heap.connect_any {Cb Ty : Type} (p : Addr) (slot : FlowSlotAny Cb Ty) (h : Heap Cb Ty) :
    Except Undefined (Connection × Heap Cb Ty) :=
  match h p with
  | some cell =>
    .ok ({ owner_ := some p, id_ := (cell.obj.connect_any slot).1 },
      Function.update h p (some { cell with obj := (cell.obj.connect_any slot).2 }))
  | none => .error (.useAfterFree p)

/-- The method `FlowSignal::Connection::reset` (FlowSignal.cpp lines 10-16):
`if (owner_ && id_) { owner_->disconnect(id_); owner_ = nullptr; id_ = 0; }`. -/
def Connection.reset {Cb Ty : Type} (c : Connection) (h : Heap Cb Ty) :
    Except Undefined (Connection × Heap Cb Ty) :=
  match c.owner_ with
  | some p =>
    if c.id_ ≠ 0 then
      match Heap.disconnect p c.id_ h with
      | .ok h1 => .ok ({ owner_ := none, id_ := 0 }, h1)
      | .error e => .error e
    else .ok (c, h)
  | none => .ok (c, h)

/-- The destructor `~Connection() { reset(); }` (FlowSignal.h line 41): what is left is the
memory. -/
def Connection.destroy {Cb Ty : Type} (c : Connection) (h : Heap Cb Ty) :
    Except Undefined (Heap Cb Ty) :=
  match c.reset h with
  | .ok r => .ok r.2
  | .error e => .error e

/-- Calling `reset` on a handle `n` times in a row. -/
def Connection.resetTimes {Cb Ty : Type} :
    Nat → Connection → Heap Cb Ty → Except Undefined (Connection × Heap Cb Ty)
  | 0, c, h => .ok (c, h)
  | n + 1, c, h =>
    match c.reset h with
    | .ok r => Connection.resetTimes n r.1 r.2
    | .error e => .error e

/-! ## The hub `FlowHub` and the string API of FlowBridge.hpp -/

/-- The order of `std::string` keys in a `std::map`: lexicographic on the characters. -/
def lexLess : List Char → List Char → Bool
  | [], [] => false
  | [], _ :: _ => true
  | _ :: _, [] => false
  | a :: as, b :: bs =>
    if a.toNat < b.toNat then true
    else if b.toNat < a.toNat then false
    else lexLess as bs

/-- The call `map_.find(name)`, giving the mapped pointer. -/
def FlowHub.find (name : String) : List (String × Addr) → Option Addr
  | [] => none
  | (k, p) :: rest => if k = name then some p else FlowHub.find name rest

/-- The call `map_.emplace(name, p)` for a key that `find` did not find: the entry goes to
its place in key order. -/
def FlowHub.insert (name : String) (p : Addr) : List (String × Addr) → List (String × Addr)
  | [] => [(name, p)]
  | (k, q) :: rest =>
    if lexLess name.data k.data then (name, p) :: (k, q) :: rest
    else (k, q) :: FlowHub.insert name p rest

/-- The entries that `map_.erase(name)` leaves. -/
def FlowHub.eraseName (name : String) (m : List (String × Addr)) : List (String × Addr) :=
  m.filter (fun kv => decide (kv.1 ≠ name))

/-- The state of the process as far as the hub is concerned: the map `map_` of the one
`FlowHub::instance()` (entries in key order, each owning a `std::shared_ptr`), the
dispatchers in memory, and the address that the next `std::make_shared` returns. -/
structure Process (Cb Ty : Type) where
  map_ : List (String × Addr) := []
  heap : Heap Cb Ty := fun _ => none
  brk : Addr := 1

/-- The method `FlowHub::getOrCreate` (FlowHub.cpp lines 15-22).  The returned
`std::shared_ptr` is a copy of the mapped one, so the caller owns one reference. -/
def FlowHub.getOrCreate {Cb Ty : Type} (name : String) (st : Process Cb Ty) :
    Addr × Process Cb Ty :=
  match FlowHub.find name st.map_ with
  | some p => (p, { st with heap := st.heap.retain p })
  | none =>
    (st.brk,
      { map_ := FlowHub.insert name st.brk st.map_,
        heap := Heap.retain st.brk (Function.update st.heap st.brk (some ⟨1, {}⟩)),
        brk := st.brk + 1 })

/-- The method `FlowHub::unregisterSignal` (FlowHub.cpp lines 24-27): erasing the entry
destroys the `std::shared_ptr` it holds. -/
def FlowHub.unregisterSignal {Cb Ty : Type} (name : String) (st : Process Cb Ty) :
    Process Cb Ty :=
  match FlowHub.find name st.map_ with
  | some p => { st with map_ := FlowHub.eraseName name st.map_, heap := st.heap.release p }
  | none => st

/-- The function `FlowBridge::registerSignal` (FlowBridge.hpp lines 23-25): the pointer
that `getOrCreate` returns is discarded at once. -/
def FlowBridge.registerSignal {Cb Ty : Type} (name : String) (st : Process Cb Ty) :
    Process Cb Ty :=
  { (FlowHub.getOrCreate name st).2 with
    heap := Heap.release (FlowHub.getOrCreate name st).1 (FlowHub.getOrCreate name st).2.heap }

/-- The function `FlowBridge::unregisterSignal` (FlowBridge.hpp lines 27-29). -/
def FlowBridge.unregisterSignal {Cb Ty : Type} (name : String) (st : Process Cb Ty) :
    Process Cb Ty :=
  FlowHub.unregisterSignal name st

/-- The function `FlowBridge::connect_any` (FlowBridge.hpp lines 46-48):
`FlowHub::instance().getOrCreate(name)->connect_any(std::move(slot))`.  The temporary
`std::shared_ptr` dies at the end of the statement; the handle keeps the raw pointer. -/
def FlowBridge.connect_any {Cb Ty : Type} (name : String) (slot : FlowSlotAny Cb Ty)
    (st : Process Cb Ty) : Except Undefined (Connection × Process Cb Ty) :=
  match Heap.connect_any (FlowHub.getOrCreate name st).1 slot
      (FlowHub.getOrCreate name st).2.heap with
  | .ok r =>
    .ok (r.1, { (FlowHub.getOrCreate name st).2 with
      heap := Heap.release (FlowHub.getOrCreate name st).1 r.2 })
  | .error e => .error e

/-- The function template `FlowBridge::connect<T>` (FlowBridge.hpp lines 40-43). -/
def FlowBridge.connect {Cb Ty : Type} (name : String) (T : Ty) (s : Cb)
    (st : Process Cb Ty) : Except Undefined (Connection × Process Cb Ty) :=
  FlowBridge.connect_any name (.typed T s) st

/-! ## Concrete payload types and callables for the scenarios -/

/-- Two payload types, `int` and `std::string`. -/
inductive CppType where
  | int : CppType
  | string : CppType
deriving DecidableEq, Repr

/-- Values of the two payload types. -/
def CppType.Val : CppType → Type
  | .int => Int
  | .string => String

/-- Three callables: `A` and `B` only return; `thrower` raises a fault. -/
inductive Callee where
  | A : Callee
  | B : Callee
  | thrower : Callee
deriving DecidableEq, Repr

/-- What the three callables do, in a world they do not change. -/
def Callee.call (c : Callee) (_a : StdAny CppType CppType.Val) (w : Unit) : Outcome Unit :=
  match c with
  | .thrower => ⟨w, some ⟨1⟩⟩
  | _ => ⟨w, none⟩

/-- A dispatcher reached from a fresh one by `connect_any(A)` and `connect_any(B)`. -/
def subscribersAB : FlowSignal Callee CppType :=
  ((({} : FlowSignal Callee CppType).connect_any (.any .A)).2.connect_any (.any .B)).2

/-- The call `connect_any(A)`, `2 ^ 64` times in a row. -/
def connectUntilWrap : List (Op Callee CppType) :=
  List.replicate UINT64_RANGE (.connect_any (.any .A))

/-- A short mixed sequence of calls on a dispatcher. -/
def mixedCalls : List (Op Callee CppType) :=
  [.connect_any (.any .A), .disconnect 1, .connect_any (.any .B), .disconnectAll,
    .connect_any (.any .A)]

/-- A dispatcher reached from a fresh one by `connect_any(A)`. -/
def subscriberA : FlowSignal Callee CppType :=
  (({} : FlowSignal Callee CppType).connect_any (.any .A)).2

/-- A call on the hub. -/
inductive HubCall where
  | getOrCreate (name : String) : HubCall
  | unregisterSignal (name : String) : HubCall
deriving DecidableEq, Repr

/-- The process after a sequence of calls on the hub, the pointers that `getOrCreate`
returns being kept by the callers. -/
def FlowHub.run {Cb Ty : Type} : List HubCall → Process Cb Ty → Process Cb Ty
  | [], st => st
  | .getOrCreate name :: calls, st => FlowHub.run calls (FlowHub.getOrCreate name st).2
  | .unregisterSignal name :: calls, st => FlowHub.run calls (FlowHub.unregisterSignal name st)

/-- A memory with one fresh dispatcher, at address 1, owned once. -/
def oneDispatcher : Heap Callee CppType :=
  Function.update (fun _ => none) 1 (some ⟨1, {}⟩)

/-- A memory with the dispatcher `subscribersAB` at address 1, owned once. -/
def dispatcherAB : Heap Callee CppType :=
  Function.update (fun _ => none) 1 (some ⟨1, subscribersAB⟩)

/-! ## Transfer of a connection handle -/

/-- The callback stored under the key `id` in the subscriber map, if any. -/
def FlowSignal.slotAt {Cb Ty : Type} (id : ConnectionId) (sig : FlowSignal Cb Ty) :
    Option (FlowSlotAny Cb Ty) :=
  (sig.slots_.find? (fun kv => decide (kv.1 = id))).map Prod.snd

/-- The callback stored under the key `id` in the dispatcher at `p`; `none` when there is no
such subscription or no dispatcher at `p`. -/
def Heap.slotAt {Cb Ty : Type} (p : Addr) (id : ConnectionId) (h : Heap Cb Ty) :
    Option (FlowSlotAny Cb Ty) :=
  match h p with
  | some cell => cell.obj.slotAt id
  | none => none

/-- The move assignment `d = std::move(other)` of `FlowSignal::Connection` (FlowSignal.h
lines 31-40) for two different objects, the case `this != &other`:
`reset(); owner_ = other.owner_; id_ = other.id_; other.owner_ = nullptr; other.id_ = 0;`.
Returns the new `d`, the new `other` and the memory. -/
def Connection.moveAssign {Cb Ty : Type} (d other : Connection) (h : Heap Cb Ty) :
    Except Undefined (Connection × Connection × Heap Cb Ty) :=
  match d.reset h with
  | .ok r => .ok ({ owner_ := other.owner_, id_ := other.id_ }, { owner_ := none, id_ := 0 }, r.2)
  | .error e => .error e

/-- The move constructor `Connection(Connection&& other) { *this = std::move(other); }`
(FlowSignal.h line 30): the fields of the new object start from their default values, and
the new object is not `other`.  Returns the new object, the new `other` and the memory. -/
def Connection.moveConstruct {Cb Ty : Type} (other : Connection) (h : Heap Cb Ty) :
    Except Undefined (Connection × Connection × Heap Cb Ty) :=
  Connection.moveAssign {} other h

/-- The handle objects of a program, by number.  A number that stands for no object holds an
inert handle. -/
abbrev Handles := Nat → Connection

/-- The move assignment `hs[i] = std::move(hs[j])` between handle objects, with the test
`if (this != &other)` of FlowSignal.h line 32: an object assigned to itself is left alone. -/
def Handles.moveAssign {Cb Ty : Type} (i j : Nat) (hs : Handles) (h : Heap Cb Ty) :
    Except Undefined (Handles × Heap Cb Ty) :=
  if i = j then .ok (hs, h)
  else
    match Connection.moveAssign (hs i) (hs j) h with
    | .ok r => .ok (Function.update (Function.update hs i r.1) j r.2.1, r.2.2)
    | .error e => .error e

/-- Handle objects 0 and 1: handle 0 is bound to subscription 1 of the dispatcher at address
1, handle 1 to subscription 2 of the same dispatcher. -/
def twoHandles : Handles :=
  Function.update (Function.update (fun _ => {}) 0 { owner_ := some 1, id_ := 1 }) 1
    { owner_ := some 1, id_ := 2 }

/-! ## Enumeration, count and emission by name -/

/-- The method `FlowHub::allSignalNames` (FlowHub.cpp lines 29-35): the keys of `map_` in
iteration order. -/
def FlowHub.allSignalNames {Cb Ty : Type} (st : Process Cb Ty) : List String :=
  st.map_.map Prod.fst

/-- The method `FlowHub::count` (FlowHub.cpp lines 37-40): `map_.size()`. -/
def FlowHub.count {Cb Ty : Type} (st : Process Cb Ty) : Nat :=
  st.map_.length

/-- The function `FlowBridge::signalCount` (FlowBridge.hpp line 50). -/
def FlowBridge.signalCount {Cb Ty : Type} (st : Process Cb Ty) : Nat :=
  FlowHub.count st

/-- The statement `FlowHub::instance().getOrCreate(name)->emit_any(data)`, which is the body
of both `FlowBridge::emit` overloads (FlowBridge.hpp lines 31-38).  The callables run in a
world made of the process and of whatever else they can touch.  The temporary
`std::shared_ptr` dies at the end of the statement, also when a fault leaves it. -/
def FlowBridge.emitWith {Cb Ty : Type} {Val : Ty → Type} {W : Type} [DecidableEq Ty]
    (call : Cb → StdAny Ty Val → Process Cb Ty × W → Outcome (Process Cb Ty × W))
    (name : String) (data : StdAny Ty Val) (st : Process Cb Ty) (w : W) :
    Except Undefined (Delivery Cb Ty Val (Process Cb Ty × W)) :=
  match (FlowHub.getOrCreate name st).2.heap (FlowHub.getOrCreate name st).1 with
  | some cell =>
    .ok { cell.obj.emit_any call data ((FlowHub.getOrCreate name st).2, w) with
      world :=
        ({ (cell.obj.emit_any call data ((FlowHub.getOrCreate name st).2, w)).world.1 with
            heap := Heap.release (FlowHub.getOrCreate name st).1
              (cell.obj.emit_any call data ((FlowHub.getOrCreate name st).2, w)).world.1.heap },
          (cell.obj.emit_any call data ((FlowHub.getOrCreate name st).2, w)).world.2) }
  | none => .error (.useAfterFree (FlowHub.getOrCreate name st).1)

/-- The function template `FlowBridge::emit<T>(name, value)` (FlowBridge.hpp lines 31-34):
the payload is `std::any(value)`. -/
def FlowBridge.emit {Cb Ty : Type} {Val : Ty → Type} {W : Type} [DecidableEq Ty]
    (call : Cb → StdAny Ty Val → Process Cb Ty × W → Outcome (Process Cb Ty × W))
    (name : String) (T : Ty) (v : Val T) (st : Process Cb Ty) (w : W) :
    Except Undefined (Delivery Cb Ty Val (Process Cb Ty × W)) :=
  FlowBridge.emitWith call name (.holding T v) st w

/-- The function `FlowBridge::emit(name)` (FlowBridge.hpp lines 36-38): the payload is the
empty `std::any()`. -/
def FlowBridge.emitEmpty {Cb Ty : Type} {Val : Ty → Type} {W : Type} [DecidableEq Ty]
    (call : Cb → StdAny Ty Val → Process Cb Ty × W → Outcome (Process Cb Ty × W))
    (name : String) (st : Process Cb Ty) (w : W) :
    Except Undefined (Delivery Cb Ty Val (Process Cb Ty × W)) :=
  FlowBridge.emitWith call name .empty st w

/-- What the callables `A`, `B` and `thrower` do in a world that contains the process: they
leave it as it is. -/
def Callee.callIn (c : Callee) (_a : StdAny CppType CppType.Val)
    (w : Process Callee CppType × Unit) : Outcome (Process Callee CppType × Unit) :=
  match c with
  | .thrower => ⟨w, some ⟨1⟩⟩
  | _ => ⟨w, none⟩

/-- The process in which only `"a"` is registered, reached from the empty process by
`registerSignal("a")`. -/
def processA : Process Callee CppType :=
  FlowBridge.registerSignal "a" {}

/-- The process reached from the empty one by `getOrCreate("b")`, `getOrCreate("a")`,
`getOrCreate("b")` and `unregisterSignal("c")`. -/
def processAB : Process Callee CppType :=
  FlowHub.run [.getOrCreate "b", .getOrCreate "a", .getOrCreate "b", .unregisterSignal "c"] {}

/-- Four callables for the scenarios with re-entrant callbacks: `releaser` releases the
handle of subscription 2, `connector` connects `late`, and `victim` and `late` only
return. -/
inductive Reentrant where
  | releaser : Reentrant
  | victim : Reentrant
  | connector : Reentrant
  | late : Reentrant
deriving DecidableEq, Repr

/-- What the four callables do.  The world is the dispatcher they are connected to.  Releasing
the handle of subscription 2 is the call `disconnect(2)`. -/
def Reentrant.call (c : Reentrant) (_a : StdAny CppType CppType.Val)
    (sig : FlowSignal Reentrant CppType) : Outcome (FlowSignal Reentrant CppType) :=
  match c with
  | .releaser => ⟨sig.disconnect 2, none⟩
  | .connector => ⟨(sig.connect_any (.any .late)).2, none⟩
  | .victim => ⟨sig, none⟩
  | .late => ⟨sig, none⟩

/-- A dispatcher whose snapshot is `releaser` (key 1), `victim` (key 2), `connector`
(key 3), in this order. -/
def reentrantSignal : FlowSignal Reentrant CppType :=
  { slots_ := [(1, .any .releaser), (2, .any .victim), (3, .any .connector)], next_id_ := 4 }

/-! ## A dispatcher together with the handles bound to it -/

/-- The call `p->disconnectAll()` through a pointer `p`. -/
def Heap.disconnectAll {Cb Ty : Type} (p : Addr) (h : Heap Cb Ty) :
    Except Undefined (Heap Cb Ty) :=
  match h p with
  | some cell => .ok (Function.update h p (some { cell with obj := cell.obj.disconnectAll }))
  | none => .error (.useAfterFree p)

/-- The memory and the handle objects of a program: the objects numbered below `made` have
been made, the others do not exist yet. -/
structure Session (Cb Ty : Type) where
  heap : Heap Cb Ty
  handles : Handles
  made : Nat

/-- A program that has made a fresh dispatcher at `p` and no handle. -/
def Session.start {Cb Ty : Type} (p : Addr) : Session Cb Ty :=
  { heap := Function.update (fun _ => none) p (some ⟨1, {}⟩),
    handles := fun _ => {},
    made := 0 }

/-- A call of the program on the dispatcher or on its handle objects. -/
inductive SessionCall (Cb Ty : Type) where
  | connect_any (slot : FlowSlotAny Cb Ty) : SessionCall Cb Ty
  | disconnect (id : ConnectionId) : SessionCall Cb Ty
  | disconnectAll : SessionCall Cb Ty
  | release (i : Nat) : SessionCall Cb Ty
  | moveAssign (i j : Nat) : SessionCall Cb Ty
  | moveConstruct (j : Nat) : SessionCall Cb Ty

/-- One call on the dispatcher at `p` or on the handle objects.
`connect_any` stores the returned handle in a new object; `release i` is `reset()` on
object `i` (the end of its lifetime does the same); `moveAssign i j` is
`hs[i] = std::move(hs[j])` between existing objects; `moveConstruct j` makes a new object
from `std::move(hs[j])`. -/
def Session.step {Cb Ty : Type} (p : Addr) :
    SessionCall Cb Ty → Session Cb Ty → Except Undefined (Session Cb Ty)
  | .connect_any slot, s =>
    match Heap.connect_any p slot s.heap with
    | .ok r =>
      .ok { heap := r.2, handles := Function.update s.handles s.made r.1, made := s.made + 1 }
    | .error e => .error e
  | .disconnect id, s =>
    match Heap.disconnect p id s.heap with
    | .ok h => .ok { s with heap := h }
    | .error e => .error e
  | .disconnectAll, s =>
    match Heap.disconnectAll p s.heap with
    | .ok h => .ok { s with heap := h }
    | .error e => .error e
  | .release i, s =>
    match (s.handles i).reset s.heap with
    | .ok r => .ok { s with heap := r.2, handles := Function.update s.handles i r.1 }
    | .error e => .error e
  | .moveAssign i j, s =>
    if i < s.made ∧ j < s.made then
      match Handles.moveAssign i j s.handles s.heap with
      | .ok r => .ok { s with heap := r.2, handles := r.1 }
      | .error e => .error e
    else .ok s
  | .moveConstruct j, s =>
    match Connection.moveConstruct (s.handles j) s.heap with
    | .ok r =>
      .ok { heap := r.2.2,
            handles := Function.update (Function.update s.handles s.made r.1) j r.2.1,
            made := s.made + 1 }
    | .error e => .error e

/-- A sequence of calls, one after the other. -/
def Session.run {Cb Ty : Type} (p : Addr) :
    List (SessionCall Cb Ty) → Session Cb Ty → Except Undefined (Session Cb Ty)
  | [], s => .ok s
  | c :: cs, s =>
    match Session.step p c s with
    | .ok s1 => Session.run p cs s1
    | .error e => .error e

/-- Number of `connect_any` calls in a sequence of calls. -/
def sessionConnects {Cb Ty : Type} : List (SessionCall Cb Ty) → Nat
  | [] => 0
  | .connect_any _ :: cs => sessionConnects cs + 1
  | _ :: cs => sessionConnects cs

/-- No call of the sequence is `disconnect(id)` or `disconnectAll()` on the dispatcher
itself. -/
def handlesOnly {Cb Ty : Type} : List (SessionCall Cb Ty) → Bool
  | [] => true
  | .disconnect _ :: _ => false
  | .disconnectAll :: _ => false
  | _ :: cs => handlesOnly cs

/-- The dispatcher at `p`. -/
def Session.sig {Cb Ty : Type} (p : Addr) (s : Session Cb Ty) : FlowSignal Cb Ty :=
  match s.heap p with
  | some cell => cell.obj
  | none => {}

/-- Handle object `i` is active and bound to the dispatcher at `p` with identifier `k`. -/
def Session.holds {Cb Ty : Type} (p : Addr) (s : Session Cb Ty) (i : Nat)
    (k : ConnectionId) : Prop :=
  s.handles i = { owner_ := some p, id_ := k } ∧ k ≠ 0

/-- The identifiers in the subscriber map of the dispatcher at `p` are exactly the
identifiers held by the active handles bound to it. -/
def Session.mapMatchesHandles {Cb Ty : Type} (p : Addr) (s : Session Cb Ty) : Prop :=
  ∀ k, k ∈ (s.sig p).ids ↔ ∃ i, s.holds p i k

/-- The calls `connect_any(A)`, then `disconnectAll()`. -/
def connectThenDisconnectAll : List (SessionCall Callee CppType) :=
  [.connect_any (.any .A), .disconnectAll]

/-- The calls `connect_any(A)`, `connect_any(B)`, then a move of the first handle into a new
object, a move assignment of the second handle into the emptied first object, and the
release of the new object. -/
def connectMoveRelease : List (SessionCall Callee CppType) :=
  [.connect_any (.any .A), .connect_any (.any .B), .moveConstruct 0, .moveAssign 0 1,
    .release 2]

/-- Every active handle bound to the dispatcher at `p` holds an identifier of its map. -/
def Session.handlesInMap {Cb Ty : Type} (p : Addr) (s : Session Cb Ty) : Prop :=
  ∀ i k, s.holds p i k → k ∈ (s.sig p).ids

/-- The invariant of a program that uses one dispatcher, at `p`, through the calls of
`SessionCall`, before the counter wraps: the dispatcher is alive and its counter is at
least 1; every handle object is inert or bound to `p` with an identifier from 1 up to the
counter; objects not made yet are inert; no two handle objects hold the same identifier;
every identifier in the map is held by an active handle. -/
structure Session.Inv {Cb Ty : Type} (p : Addr) (s : Session Cb Ty) : Prop where
  live : ∃ cell, s.heap p = some cell
  pos : 1 ≤ (s.sig p).next_id_
  bound : ∀ i, s.handles i = { owner_ := none, id_ := 0 }
    ∨ ∃ k, s.handles i = { owner_ := some p, id_ := k } ∧ 1 ≤ k ∧ k < (s.sig p).next_id_
  unmade : ∀ i, s.made ≤ i → s.handles i = { owner_ := none, id_ := 0 }
  one : ∀ i j k, s.holds p i k → s.holds p j k → i = j
  sub : ∀ k, k ∈ (s.sig p).ids → ∃ i, s.holds p i k

/-! ## Sequences of calls of the string API -/

/-- A call of the string API of FlowBridge.hpp.  `connect<T>` is `connect_any` with the slot
that `connect<T>` builds; `emit(name)` is `emit` with the empty payload. -/
inductive ApiCall (Cb Ty : Type) (Val : Ty → Type) where
  | registerSignal (name : String) : ApiCall Cb Ty Val
  | connect_any (name : String) (slot : FlowSlotAny Cb Ty) : ApiCall Cb Ty Val
  | emit (name : String) (data : StdAny Ty Val) : ApiCall Cb Ty Val
  | unregisterSignal (name : String) : ApiCall Cb Ty Val

/-- One call of the string API.  The handle that `connect_any` returns stays with the
caller; a fault that leaves `emit` is caught by the caller. -/
def FlowBridge.step {Cb Ty : Type} {Val : Ty → Type} {W : Type} [DecidableEq Ty]
    (call : Cb → StdAny Ty Val → Process Cb Ty × W → Outcome (Process Cb Ty × W)) :
    ApiCall Cb Ty Val → Process Cb Ty × W → Except Undefined (Process Cb Ty × W)
  | .registerSignal name, s => .ok (FlowBridge.registerSignal name s.1, s.2)
  | .connect_any name slot, s =>
    match FlowBridge.connect_any name slot s.1 with
    | .ok r => .ok (r.2, s.2)
    | .error e => .error e
  | .emit name data, s =>
    match FlowBridge.emitWith call name data s.1 s.2 with
    | .ok d => .ok d.world
    | .error e => .error e
  | .unregisterSignal name, s => .ok (FlowBridge.unregisterSignal name s.1, s.2)

/-- A sequence of calls of the string API, one after the other. -/
def FlowBridge.run {Cb Ty : Type} {Val : Ty → Type} {W : Type} [DecidableEq Ty]
    (call : Cb → StdAny Ty Val → Process Cb Ty × W → Outcome (Process Cb Ty × W)) :
    List (ApiCall Cb Ty Val) → Process Cb Ty × W → Except Undefined (Process Cb Ty × W)
  | [], s => .ok s
  | c :: cs, s =>
    match FlowBridge.step call c s with
    | .ok s1 => FlowBridge.run call cs s1
    | .error e => .error e

/-- The name that a call passes. -/
def ApiCall.name {Cb Ty : Type} {Val : Ty → Type} : ApiCall Cb Ty Val → String
  | .registerSignal name => name
  | .connect_any name _ => name
  | .emit name _ => name
  | .unregisterSignal name => name

/-- The call is `registerSignal`, `connect` or `emit`, not `unregisterSignal`. -/
def ApiCall.creates {Cb Ty : Type} {Val : Ty → Type} : ApiCall Cb Ty Val → Bool
  | .unregisterSignal _ => false
  | _ => true

/-- The names passed to `registerSignal`, `connect` or `emit` in a sequence of calls. -/
def namesPassed {Cb Ty : Type} {Val : Ty → Type} : List (ApiCall Cb Ty Val) → List String
  | [] => []
  | c :: cs => if c.creates then c.name :: namesPassed cs else namesPassed cs

/-- The names passed to `unregisterSignal` in a sequence of calls. -/
def namesUnregistered {Cb Ty : Type} {Val : Ty → Type} :
    List (ApiCall Cb Ty Val) → List String
  | [] => []
  | c :: cs => if c.creates then namesUnregistered cs else c.name :: namesUnregistered cs

/-- The count that the specification states: the number of distinct names ever passed to
`registerSignal`, `connect` or `emit` that are not among those passed to
`unregisterSignal`. -/
def statedCount {Cb Ty : Type} {Val : Ty → Type} (calls : List (ApiCall Cb Ty Val)) : Nat :=
  ((namesPassed calls).dedup.filter
    (fun name => decide (name ∉ namesUnregistered calls))).length

/-- The same with "minus" read as a difference of numbers: the number of distinct names
passed to `registerSignal`, `connect` or `emit`, minus the number of distinct names passed
to `unregisterSignal`. -/
def statedDifference {Cb Ty : Type} {Val : Ty → Type} (calls : List (ApiCall Cb Ty Val)) :
    Nat :=
  (namesPassed calls).dedup.length - (namesUnregistered calls).dedup.length

/-- What one call does to the set of registered names: a name passed to `registerSignal`,
`connect` or `emit` is added unless it is there, a name passed to `unregisterSignal` is
taken out. -/
def namesStep {Cb Ty : Type} {Val : Ty → Type} (c : ApiCall Cb Ty Val) (acc : List String) :
    List String :=
  if c.creates then (if c.name ∈ acc then acc else c.name :: acc)
  else acc.filter (fun k => decide (k ≠ c.name))

/-- The names that are registered after a sequence of calls, starting from the names
`acc`. -/
def namesAfter {Cb Ty : Type} {Val : Ty → Type} :
    List (ApiCall Cb Ty Val) → List String → List String
  | [], acc => acc
  | c :: cs, acc => namesAfter cs (namesStep c acc)

/-- No name is passed to `registerSignal`, `connect` or `emit` after it has been passed to
`unregisterSignal`. -/
def neverAgain {Cb Ty : Type} {Val : Ty → Type} : List (ApiCall Cb Ty Val) → Prop
  | [] => True
  | c :: cs => (c.creates = false → c.name ∉ namesPassed cs) ∧ neverAgain cs

/-- The invariant of the process under the string API: the keys of the registry are unique;
every entry points below the allocation mark at a dispatcher that is alive and owned; no two
entries point at the same dispatcher. -/
structure Process.WF {Cb Ty : Type} (st : Process Cb Ty) : Prop where
  keys : (st.map_.map Prod.fst).Nodup
  live : ∀ name p, FlowHub.find name st.map_ = some p →
    p < st.brk ∧ ∃ cell, st.heap p = some cell ∧ 1 ≤ cell.use_count
  inj : ∀ name other p, FlowHub.find name st.map_ = some p →
    FlowHub.find other st.map_ = some p → name = other

/-- The calls `registerSignal("a")`, `unregisterSignal("a")`, `registerSignal("a")`. -/
def registerAgain : List (ApiCall Callee CppType CppType.Val) :=
  [.registerSignal "a", .unregisterSignal "a", .registerSignal "a"]

/-- The calls `registerSignal("a")`, `connect_any("b", A)`, `emit("c", 42)`,
`emit("b")`, `unregisterSignal("a")`, `unregisterSignal("z")`. -/
def threeNames : List (ApiCall Callee CppType CppType.Val) :=
  [.registerSignal "a", .connect_any "b" (.any .A), .emit "c" (.holding .int (42 : Int)),
    .emit "b" .empty, .unregisterSignal "a", .unregisterSignal "z"]

/-! ## Dispatchers whose counter has wrapped -/

/-- The call `connect_any(A)`, `2 ^ 64 - 1` times in a row. -/
def connectToZero : List (Op Callee CppType) :=
  List.replicate (UINT64_RANGE - 1) (.connect_any (.any .A))

/-- A memory with one dispatcher, at address 1, owned once: the dispatcher reached from a
fresh one by `2 ^ 64 - 1` calls of `connect_any(A)`. -/
def counterZero : Heap Callee CppType :=
  Function.update (fun _ => none) 1
    (some ⟨1, FlowSignal.exec connectToZero ({} : FlowSignal Callee CppType)⟩)

/-! # Theorems

## The hub: lookup, reference counts, `getOrCreate` -/

section Hub
variable {Cb Ty : Type}

theorem FlowHub.find_insert (name : String) (p : Addr) (m : List (String × Addr))
    (h : FlowHub.find name m = none) : FlowHub.find name (FlowHub.insert name p m) = some p := by
  induction m with
  | nil => simp [FlowHub.insert, FlowHub.find]
  | cons kq rest ih =>
    obtain ⟨k, q⟩ := kq
    simp only [FlowHub.find] at h
    by_cases hk : k = name
    · simp [hk] at h
    · simp only [hk, if_false] at h
      simp only [FlowHub.insert]
      by_cases hl : lexLess name.data k.data = true
      · simp [hl, FlowHub.find]
      · simp [hl, FlowHub.find, hk, ih h]

theorem Heap.release_retain (p : Addr) (h : Heap Cb Ty) (cell : SharedCell Cb Ty)
    (hp : h p = some cell) (hc : 1 ≤ cell.use_count) : Heap.release p (Heap.retain p h) = h := by
  funext q
  simp only [Heap.retain, hp, Heap.release, Function.update_same]
  have : ¬ (cell.use_count + 1 ≤ 1) := by omega
  simp only [this, if_false, Function.update_idem]
  by_cases hq : q = p
  · subst hq; simp [hp]
  · simp [Function.update_noteq hq]

theorem Heap.release_retain_none (p : Addr) (h : Heap Cb Ty) (hp : h p = none) :
    Heap.release p (Heap.retain p h) = h := by
  simp [Heap.retain, hp, Heap.release]

theorem FlowHub.getOrCreate_found (name : String) (st : Process Cb Ty) (p : Addr)
    (h : FlowHub.find name st.map_ = some p) :
    FlowHub.getOrCreate name st = (p, { st with heap := st.heap.retain p }) := by
  simp [FlowHub.getOrCreate, h]

theorem FlowHub.find_getOrCreate (name : String) (st : Process Cb Ty) :
    FlowHub.find name (FlowHub.getOrCreate name st).2.map_
      = some (FlowHub.getOrCreate name st).1 := by
  cases h : FlowHub.find name st.map_ with
  | some p => simp [FlowHub.getOrCreate, h]
  | none => simp [FlowHub.getOrCreate, h, FlowHub.find_insert]

/-- After `getOrCreate`, the dispatcher it returned is in memory with at least one owner, or
(in a state that no run produces) the entry found points at no dispatcher. -/
theorem FlowHub.getOrCreate_owned (name : String) (st : Process Cb Ty) :
    (FlowHub.getOrCreate name st).2.heap (FlowHub.getOrCreate name st).1 = none ∨
    ∃ cell, (FlowHub.getOrCreate name st).2.heap (FlowHub.getOrCreate name st).1 = some cell
      ∧ 1 ≤ cell.use_count := by
  cases h : FlowHub.find name st.map_ with
  | some p =>
    simp only [FlowHub.getOrCreate, h, Heap.retain]
    cases hp : st.heap p with
    | none => left; simp [hp]
    | some cell => right; simp
  | none =>
    right
    simp [FlowHub.getOrCreate, h, Heap.retain]


theorem Heap.release_owned (p : Addr) (h : Heap Cb Ty) :
    Heap.release p h p = none ∨ ∃ cell, Heap.release p h p = some cell ∧ 1 ≤ cell.use_count := by
  unfold Heap.release
  cases hp : h p with
  | none => left; simp [hp]
  | some cell =>
    by_cases hc : cell.use_count ≤ 1
    · left; simp [hc]
    · right; simp [hc]; omega

theorem Heap.release_retain_owned (p : Addr) (h : Heap Cb Ty)
    (hp : h p = none ∨ ∃ cell, h p = some cell ∧ 1 ≤ cell.use_count) :
    Heap.release p (Heap.retain p h) = h := by
  rcases hp with hp | ⟨cell, hp, hc⟩
  · exact Heap.release_retain_none p h hp
  · exact Heap.release_retain p h cell hp hc

theorem FlowHub.find_insert_ne (name other : String) (p : Addr) (m : List (String × Addr))
    (hne : other ≠ name) :
    FlowHub.find name (FlowHub.insert other p m) = FlowHub.find name m := by
  induction m with
  | nil => simp [FlowHub.insert, FlowHub.find, hne]
  | cons kq rest ih =>
    obtain ⟨k, q⟩ := kq
    simp only [FlowHub.insert]
    by_cases hl : lexLess other.data k.data = true
    · simp [hl, FlowHub.find, hne]
    · simp only [hl, FlowHub.find]
      by_cases hk : k = name
      · simp [hk]
      · simp [hk, ih]

theorem FlowHub.find_eraseName_ne (name other : String) (m : List (String × Addr))
    (hne : other ≠ name) :
    FlowHub.find name (FlowHub.eraseName other m) = FlowHub.find name m := by
  induction m with
  | nil => rfl
  | cons kq rest ih =>
    obtain ⟨k, q⟩ := kq
    by_cases hk : k = other
    · have hcons : FlowHub.eraseName other ((k, q) :: rest) = FlowHub.eraseName other rest :=
        List.filter_cons_of_neg (by simp [hk])
      have hkn : k ≠ name := hk ▸ hne
      rw [hcons, ih]
      simp [FlowHub.find, hkn]
    · have hcons : FlowHub.eraseName other ((k, q) :: rest)
          = (k, q) :: FlowHub.eraseName other rest :=
        List.filter_cons_of_pos (by simp [hk])
      rw [hcons]
      simp only [FlowHub.find, ih]

/-- Calls on the hub other than `unregisterSignal(name)` keep the entry of a registered
`name`. -/
theorem FlowHub.find_run (name : String) (p : Addr) (calls : List HubCall)
    (st : Process Cb Ty) (hno : HubCall.unregisterSignal name ∉ calls)
    (hreg : FlowHub.find name st.map_ = some p) :
    FlowHub.find name (FlowHub.run calls st).map_ = some p := by
  induction calls generalizing st with
  | nil => exact hreg
  | cons call tl ih =>
    have htl : HubCall.unregisterSignal name ∉ tl := fun hm => hno (List.mem_cons_of_mem _ hm)
    cases call with
    | getOrCreate other =>
      refine ih _ htl ?_
      by_cases ho : other = name
      · rw [ho, FlowHub.find_getOrCreate name st, FlowHub.getOrCreate_found name st p hreg]
      · cases hf : FlowHub.find other st.map_ with
        | some q => simpa [FlowHub.getOrCreate, hf] using hreg
        | none => simpa [FlowHub.getOrCreate, hf, FlowHub.find_insert_ne name other _ _ ho]
            using hreg
    | unregisterSignal other =>
      have ho : other ≠ name := fun heq => hno (heq ▸ List.mem_cons_self _ _)
      refine ih _ htl ?_
      cases hf : FlowHub.find other st.map_ with
      | some q =>
        simpa [FlowHub.unregisterSignal, hf, FlowHub.find_eraseName_ne name other _ ho]
          using hreg
      | none => simpa [FlowHub.unregisterSignal, hf] using hreg

/-- On a registered name whose dispatcher has an owner, `registerSignal` changes nothing. -/
theorem FlowBridge.registerSignal_found (name : String) (st : Process Cb Ty) (p : Addr)
    (h : FlowHub.find name st.map_ = some p)
    (hp : st.heap p = none ∨ ∃ cell, st.heap p = some cell ∧ 1 ≤ cell.use_count) :
    FlowBridge.registerSignal name st = st := by
  unfold FlowBridge.registerSignal
  rw [FlowHub.getOrCreate_found name st p h]
  simp only [Heap.release_retain_owned p st.heap hp]

/-- C1. Two successive `getOrCreate(name)` calls return the same dispatcher identity, also
when other calls on the hub, none of them `unregisterSignal(name)`, come in between.  The
second call leaves the registry map and the allocator as the first left them, and its one
effect on memory is the reference it returns: dropping that reference gives back the state
after the first call.  `registerSignal`, which drops the reference at once, is therefore a
no-op on a name that is registered. -/
theorem getOrCreate_twice_same_dispatcher (name : String) (st : Process Cb Ty) :
    (FlowHub.getOrCreate name (FlowHub.getOrCreate name st).2).1
        = (FlowHub.getOrCreate name st).1
    ∧ (∀ calls : List HubCall, HubCall.unregisterSignal name ∉ calls →
        (FlowHub.getOrCreate name (FlowHub.run calls (FlowHub.getOrCreate name st).2)).1
          = (FlowHub.getOrCreate name st).1)
    ∧ (FlowHub.getOrCreate name (FlowHub.getOrCreate name st).2).2.map_
        = (FlowHub.getOrCreate name st).2.map_
    ∧ (FlowHub.getOrCreate name (FlowHub.getOrCreate name st).2).2.brk
        = (FlowHub.getOrCreate name st).2.brk
    ∧ Heap.release (FlowHub.getOrCreate name (FlowHub.getOrCreate name st).2).1
          (FlowHub.getOrCreate name (FlowHub.getOrCreate name st).2).2.heap
        = (FlowHub.getOrCreate name st).2.heap
    ∧ FlowBridge.registerSignal name (FlowBridge.registerSignal name st)
        = FlowBridge.registerSignal name st := by
  have hfound := FlowHub.find_getOrCreate name st
  have h2 := FlowHub.getOrCreate_found name (FlowHub.getOrCreate name st).2 _ hfound
  refine ⟨by rw [h2], fun calls hno => ?_, by rw [h2], by rw [h2], ?_, ?_⟩
  · rw [FlowHub.getOrCreate_found name _ _ (FlowHub.find_run name _ calls _ hno hfound)]
  · rw [h2]
    exact Heap.release_retain_owned _ _ (FlowHub.getOrCreate_owned name st)
  · exact FlowBridge.registerSignal_found name _ _ hfound (Heap.release_owned _ _)

end Hub

section HubWitness

/-- Witness for C1: in an empty process, `getOrCreate("a")` returns the dispatcher at
address 1, and returns it again after `getOrCreate("b")` and `unregisterSignal("b")`. -/
theorem getOrCreate_twice_same_dispatcher_witness :
    HubCall.unregisterSignal "a" ∉ [HubCall.getOrCreate "b", HubCall.unregisterSignal "b"]
    ∧ (FlowHub.getOrCreate "a" ({} : Process Callee CppType)).1 = 1
    ∧ (FlowHub.getOrCreate "a"
        (FlowHub.run [HubCall.getOrCreate "b", HubCall.unregisterSignal "b"]
          (FlowHub.getOrCreate "a" ({} : Process Callee CppType)).2)).1
        = (FlowHub.getOrCreate "a" ({} : Process Callee CppType)).1 :=
  ⟨by decide, rfl,
    (getOrCreate_twice_same_dispatcher "a" ({} : Process Callee CppType)).2.1
      [HubCall.getOrCreate "b", HubCall.unregisterSignal "b"] (by decide)⟩

end HubWitness

/-! ## Emission -/

section Emission
variable {Cb Ty : Type} {Val : Ty → Type} {W : Type} [DecidableEq Ty]

theorem deliver_nil (call : Cb → StdAny Ty Val → W → Outcome W) (data : StdAny Ty Val) (w : W) :
    deliver call data [] w = ⟨[], [], w, none⟩ := rfl

/-- An emission that ends without a fault invoked the whole snapshot. -/
theorem deliver_invoked_all (call : Cb → StdAny Ty Val → W → Outcome W)
    (data : StdAny Ty Val) (l : List (FlowSlotAny Cb Ty)) (w : W)
    (h : (deliver call data l w).fault = none) :
    (deliver call data l w).invoked = l.map (fun s => (s, data)) := by
  induction l generalizing w with
  | nil => rfl
  | cons s tl ih =>
    unfold deliver at h ⊢
    cases hf : (s.invoke call data w).fault with
    | some e => simp [hf] at h
    | none =>
      simp only [hf] at h ⊢
      simp [ih _ h]

theorem FlowSlotAny.invoke_frame {S : Type} (call : Cb → StdAny Ty Val → W → Outcome W)
    (self : W → S) (hcall : ∀ c a w, self (call c a w).world = self w)
    (s : FlowSlotAny Cb Ty) (a : StdAny Ty Val) (w : W) :
    self (s.invoke call a w).world = self w := by
  cases s with
  | any c => exact hcall c a w
  | typed T c =>
    simp only [FlowSlotAny.invoke]
    split
    · exact hcall c a w
    · rfl

theorem deliver_frame {S : Type} (call : Cb → StdAny Ty Val → W → Outcome W)
    (self : W → S) (hcall : ∀ c a w, self (call c a w).world = self w)
    (data : StdAny Ty Val) (l : List (FlowSlotAny Cb Ty)) (w : W) :
    self (deliver call data l w).world = self w := by
  induction l generalizing w with
  | nil => rfl
  | cons s tl ih =>
    unfold deliver
    cases hf : (s.invoke call data w).fault with
    | some e => exact FlowSlotAny.invoke_frame call self hcall s data w
    | none =>
      simp only
      rw [ih, FlowSlotAny.invoke_frame call self hcall s data w]

end Emission

section Claims23
variable {Cb Ty : Type} {Val : Ty → Type} {W : Type} [DecidableEq Ty]

end Claims23

/-! ## A handle kept after its name is unregistered -/

section Dangling
variable {Cb Ty : Type}

/-- C4 fails on the code. In an empty process, `connect(name, s)` makes the dispatcher at
address 1 and returns the handle `Connection{1, 1}`; the handle holds a raw pointer, so the
registry entry is the only owner of the dispatcher (use count 1).  Released now, the handle
disconnects normally.  After `unregisterSignal(name)` the dispatcher is destroyed, and
releasing the handle calls `disconnect` through a pointer to a destroyed object. -/
theorem unregister_destroys_dispatcher_of_live_handle (name : String) (T : Ty) (s : Cb) :
    ∃ st1 : Process Cb Ty,
      FlowBridge.connect name T s {} = .ok ({ owner_ := some 1, id_ := 1 }, st1)
      ∧ (st1.heap 1).map (fun cell => cell.use_count) = some 1
      ∧ (∃ h1, Connection.reset { owner_ := some 1, id_ := 1 } st1.heap = .ok ({}, h1))
      ∧ (FlowBridge.unregisterSignal name st1).heap 1 = none
      ∧ Connection.reset { owner_ := some 1, id_ := 1 } (FlowBridge.unregisterSignal name st1).heap
          = .error (.useAfterFree 1)
      ∧ Connection.destroy { owner_ := some 1, id_ := 1 }
            (FlowBridge.unregisterSignal name st1).heap
          = .error (.useAfterFree 1) := by
  have hc : FlowBridge.connect name T s ({} : Process Cb Ty)
      = .ok ({ owner_ := some 1, id_ := 1 },
          { map_ := [(name, 1)],
            heap := Function.update (fun _ => none) 1
              (some ⟨1, { slots_ := [(1, .typed T s)], next_id_ := 2 }⟩),
            brk := 2 }) := by
    simp [FlowBridge.connect, FlowBridge.connect_any, FlowHub.getOrCreate, FlowHub.find,
      FlowHub.insert, Heap.connect_any, Heap.retain, Heap.release, FlowSignal.connect_any,
      emplace, UINT64_RANGE]
  refine ⟨_, hc, by simp, ?_, ?_, ?_, ?_⟩
  · simp [Connection.reset, Heap.disconnect]
  · simp [FlowBridge.unregisterSignal, FlowHub.unregisterSignal, FlowHub.find, Heap.release]
  · simp [FlowBridge.unregisterSignal, FlowHub.unregisterSignal, FlowHub.find, Heap.release,
      Connection.reset, Heap.disconnect]
  · simp [FlowBridge.unregisterSignal, FlowHub.unregisterSignal, FlowHub.find, Heap.release,
      Connection.destroy, Connection.reset, Heap.disconnect]

end Dangling

/-! ## The identifier counter -/

section Counter
variable {Cb Ty : Type}

theorem FlowSignal.issued_of_no_connect (ops : List (Op Cb Ty)) (sig : FlowSignal Cb Ty)
    (h : connects ops = 0) : FlowSignal.issued ops sig = [] := by
  induction ops generalizing sig with
  | nil => rfl
  | cons op tl ih =>
    cases op with
    | connect_any slot => simp [connects] at h
    | disconnect id => exact ih _ (by simpa [connects] using h)
    | disconnectAll => exact ih _ (by simpa [connects] using h)

/-- While the counter does not wrap, identifiers are handed out in strictly increasing order,
none below the counter value at the start. -/
theorem FlowSignal.issued_increasing (ops : List (Op Cb Ty)) (sig : FlowSignal Cb Ty)
    (h : sig.next_id_ + connects ops ≤ UINT64_RANGE) :
    List.Pairwise (fun a b => a < b) (FlowSignal.issued ops sig)
    ∧ ∀ id ∈ FlowSignal.issued ops sig, sig.next_id_ ≤ id := by
  induction ops generalizing sig with
  | nil => simp [FlowSignal.issued]
  | cons op tl ih =>
    cases op with
    | connect_any slot =>
      simp only [connects] at h
      simp only [FlowSignal.issued, List.pairwise_cons, List.mem_cons, forall_eq_or_imp]
      by_cases hw : sig.next_id_ + 1 < UINT64_RANGE <;> simp only [ConnectionId] at *
      · have hnext : (sig.connect_any slot).2.next_id_ = sig.next_id_ + 1 := by
          simp [FlowSignal.connect_any, Nat.mod_eq_of_lt hw]
        have hih := ih (sig.connect_any slot).2 (by rw [hnext]; omega)
        rw [hnext] at hih
        refine ⟨⟨fun a ha => ?_, hih.1⟩, ?_, fun a ha => ?_⟩
        · have := hih.2 a ha
          simp only [FlowSignal.connect_any]; omega
        · simp [FlowSignal.connect_any]
        · have := hih.2 a ha; omega
      · have h0 : connects tl = 0 := by omega
        rw [FlowSignal.issued_of_no_connect tl _ h0]
        simp [FlowSignal.connect_any]
    | disconnect id =>
      exact ih (sig.disconnect id) (by simpa [connects, FlowSignal.disconnect] using h)
    | disconnectAll =>
      exact ih sig.disconnectAll (by simpa [connects, FlowSignal.disconnectAll] using h)

/-- The identifiers handed out by `n` successive `connect_any` calls. -/
theorem FlowSignal.issued_replicate (slot : FlowSlotAny Cb Ty) (n : Nat) (sig : FlowSignal Cb Ty)
    (h : sig.next_id_ < UINT64_RANGE) :
    FlowSignal.issued (List.replicate n (.connect_any slot)) sig
      = (List.range n).map (fun i => (sig.next_id_ + i) % UINT64_RANGE) := by
  induction n generalizing sig with
  | zero => rfl
  | succ n ih =>
    have hpos : 0 < UINT64_RANGE := by unfold UINT64_RANGE; positivity
    rw [List.replicate_succ, FlowSignal.issued, List.range_succ_eq_map, List.map_cons,
      List.map_map, ih _ (by simp only [FlowSignal.connect_any]; exact Nat.mod_lt _ hpos)]
    congr 1
    · simp [FlowSignal.connect_any, Nat.mod_eq_of_lt h]
    · apply List.map_congr_left
      intro i _
      simp only [FlowSignal.connect_any, Function.comp, Nat.succ_eq_add_one]
      rw [Nat.mod_add_mod]
      congr 1
      omega

/-- C5, as stated, fails. After `2 ^ 64 - 1` calls of `connect_any` the 64-bit counter wraps:
the next call hands out 0, which is not greater than the identifiers handed out before, so
the identifiers of `2 ^ 64` successive `connect_any` calls on a fresh dispatcher are not in
strictly increasing order. -/
theorem connect_any_counter_wraps :
    ¬ List.Pairwise (fun a b => a < b)
        (FlowSignal.issued connectUntilWrap ({} : FlowSignal Callee CppType)) := by
  intro hp
  have hlt : (1 : Nat) < UINT64_RANGE := by unfold UINT64_RANGE; norm_num
  have hiss := FlowSignal.issued_replicate (FlowSlotAny.any Callee.A) UINT64_RANGE
    ({} : FlowSignal Callee CppType) hlt
  unfold connectUntilWrap at hp
  rw [hiss, List.pairwise_map, List.pairwise_iff_getElem] at hp
  have hi : UINT64_RANGE - 2 < (List.range UINT64_RANGE).length := by
    rw [List.length_range]; unfold UINT64_RANGE; norm_num
  have hj : UINT64_RANGE - 1 < (List.range UINT64_RANGE).length := by
    rw [List.length_range]; unfold UINT64_RANGE; norm_num
  have hij : UINT64_RANGE - 2 < UINT64_RANGE - 1 := by unfold UINT64_RANGE; norm_num
  have hbad := hp (UINT64_RANGE - 2) (UINT64_RANGE - 1) hi hj hij
  rw [List.getElem_range, List.getElem_range] at hbad
  revert hbad
  unfold UINT64_RANGE
  norm_num

/-- C5, amended. For every sequence of `connect_any`, `disconnect` and `disconnectAll` calls
on a fresh dispatcher that contains at most `2 ^ 64 - 1` calls of `connect_any`, every
identifier handed out is strictly greater than every identifier handed out before it, so no
identifier is handed out twice, whatever was disconnected in between. -/
theorem connect_any_ids_increase_before_wrap (ops : List (Op Cb Ty))
    (h : connects ops ≤ UINT64_RANGE - 1) :
    List.Pairwise (fun a b => a < b) (FlowSignal.issued ops ({} : FlowSignal Cb Ty))
    ∧ (FlowSignal.issued ops ({} : FlowSignal Cb Ty)).Nodup := by
  have hM : 1 ≤ UINT64_RANGE := by unfold UINT64_RANGE; norm_num
  have hinc := (FlowSignal.issued_increasing ops ({} : FlowSignal Cb Ty)
    (by show 1 + connects ops ≤ UINT64_RANGE; omega)).1
  exact ⟨hinc, hinc.imp (fun hab => Nat.ne_of_lt hab)⟩

/-- Witness for C5, amended: a mixed sequence with three `connect_any` calls hands out
1, 2, 3. -/
theorem connect_any_ids_increase_before_wrap_witness :
    connects mixedCalls ≤ UINT64_RANGE - 1
    ∧ FlowSignal.issued mixedCalls ({} : FlowSignal Callee CppType) = [1, 2, 3]
    ∧ List.Pairwise (fun a b => a < b)
        (FlowSignal.issued mixedCalls ({} : FlowSignal Callee CppType)) :=
  ⟨by decide, by decide,
    (connect_any_ids_increase_before_wrap mixedCalls (by decide)).1⟩

end Counter

/-! ## `connect_any`, `disconnect`, `disconnectAll` on the subscriber map -/

section Subscribers
variable {Cb Ty : Type}

theorem erase_of_not_mem {α : Type} (id : ConnectionId) (m : List (ConnectionId × α))
    (h : id ∉ m.map Prod.fst) : erase id m = m := by
  unfold erase
  rw [List.filter_eq_self]
  intro kv hkv
  have : kv.1 ≠ id := fun heq => h (heq ▸ List.mem_map_of_mem Prod.fst hkv)
  simpa using this

theorem mem_erase {α : Type} (id : ConnectionId) (m : List (ConnectionId × α))
    (kv : ConnectionId × α) : kv ∈ erase id m ↔ kv ∈ m ∧ kv.1 ≠ id := by
  simp [erase, List.mem_filter]

theorem erase_emplace {α : Type} (id : ConnectionId) (slot : α) (m : List (ConnectionId × α))
    (h : id ∉ m.map Prod.fst) : erase id (emplace id slot m) = m := by
  have hm : m.filter (fun kv => decide (kv.1 ≠ id)) = m := erase_of_not_mem id m h
  unfold emplace erase
  rw [if_neg h, List.filter_append, hm]
  simp

/-- In a map with unique keys, `erase` of a present key removes exactly one entry. -/
theorem length_erase {α : Type} (id : ConnectionId) (m : List (ConnectionId × α))
    (hnd : (m.map Prod.fst).Nodup) (h : id ∈ m.map Prod.fst) :
    (erase id m).length + 1 = m.length := by
  induction m with
  | nil => simp at h
  | cons kv tl ih =>
    simp only [List.map_cons, List.nodup_cons] at hnd
    by_cases hk : kv.1 = id
    · have htl : id ∉ tl.map Prod.fst := hk ▸ hnd.1
      have htl1 : erase id tl = tl := erase_of_not_mem id tl htl
      have hcons : erase id (kv :: tl) = erase id tl :=
        List.filter_cons_of_neg (by simp [hk])
      rw [hcons, htl1, List.length_cons]
    · have hin : id ∈ tl.map Prod.fst := by
        simp only [List.map_cons, List.mem_cons] at h
        rcases h with h | h
        · exact absurd h.symm hk
        · exact h
      have hcons : erase id (kv :: tl) = kv :: erase id tl :=
        List.filter_cons_of_pos (by simp [hk])
      rw [hcons, List.length_cons, List.length_cons, ih hnd.2 hin]

/-- Keys stay unique under `emplace`. -/
theorem nodup_emplace {α : Type} (id : ConnectionId) (slot : α) (m : List (ConnectionId × α))
    (hnd : (m.map Prod.fst).Nodup) : ((emplace id slot m).map Prod.fst).Nodup := by
  unfold emplace
  split
  · exact hnd
  · rename_i hid
    rw [List.map_append, List.nodup_append]
    refine ⟨hnd, by simp, ?_⟩
    intro a ha hb
    simp only [List.map_cons, List.map_nil, List.mem_singleton] at hb
    exact hid (hb ▸ ha)

/-- Keys stay unique under `erase`. -/
theorem nodup_erase {α : Type} (id : ConnectionId) (m : List (ConnectionId × α))
    (hnd : (m.map Prod.fst).Nodup) : ((erase id m).map Prod.fst).Nodup := by
  unfold erase
  exact (List.Sublist.map Prod.fst (List.filter_sublist _)).nodup hnd

/-- Every dispatcher reached from a fresh one has unique keys in its map. -/
theorem FlowSignal.exec_ids_nodup (ops : List (Op Cb Ty)) (sig : FlowSignal Cb Ty)
    (hnd : sig.ids.Nodup) : (FlowSignal.exec ops sig).ids.Nodup := by
  induction ops generalizing sig with
  | nil => exact hnd
  | cons op tl ih =>
    cases op with
    | connect_any slot => exact ih _ (nodup_emplace _ slot _ hnd)
    | disconnect id => exact ih _ (nodup_erase id _ hnd)
    | disconnectAll => exact ih _ (by simp [FlowSignal.disconnectAll, FlowSignal.ids])

/-- While the counter does not wrap, every key of the map is below the counter. -/
theorem FlowSignal.exec_ids_lt (ops : List (Op Cb Ty)) (sig : FlowSignal Cb Ty)
    (hlt : ∀ k ∈ sig.ids, k < sig.next_id_)
    (h : sig.next_id_ + connects ops < UINT64_RANGE) :
    ∀ k ∈ (FlowSignal.exec ops sig).ids, k < (FlowSignal.exec ops sig).next_id_ := by
  induction ops generalizing sig with
  | nil => exact hlt
  | cons op tl ih =>
    cases op with
    | connect_any slot =>
      simp only [connects] at h
      have hw : sig.next_id_ + 1 < UINT64_RANGE := by simp only [ConnectionId] at *; omega
      have hnext : (sig.connect_any slot).2.next_id_ = sig.next_id_ + 1 := by
        simp [FlowSignal.connect_any, Nat.mod_eq_of_lt hw]
      refine ih (sig.connect_any slot).2 ?_ (by rw [hnext]; simp only [ConnectionId] at *; omega)
      intro k hk
      rw [hnext]
      simp only [FlowSignal.ids, FlowSignal.connect_any, emplace] at hk
      split at hk
      · exact Nat.lt_succ_of_lt (hlt k hk)
      · simp only [List.map_append, List.map_cons, List.map_nil, List.mem_append,
          List.mem_singleton] at hk
        rcases hk with hk | hk
        · exact Nat.lt_succ_of_lt (hlt k hk)
        · rw [hk]; exact Nat.lt_succ_self _
    | disconnect id =>
      refine ih (sig.disconnect id) ?_ (by simpa [connects, FlowSignal.disconnect] using h)
      intro k hk
      have hsub : (erase id sig.slots_).map Prod.fst ⊆ sig.slots_.map Prod.fst :=
        (List.Sublist.map Prod.fst (List.filter_sublist _)).subset
      exact hlt k (hsub hk)
    | disconnectAll =>
      refine ih sig.disconnectAll ?_ (by simpa [connects, FlowSignal.disconnectAll] using h)
      intro k hk
      simp [FlowSignal.disconnectAll, FlowSignal.ids] at hk

/-- While the counter does not wrap, it counts the `connect_any` calls. -/
theorem FlowSignal.exec_next_id (ops : List (Op Cb Ty)) (sig : FlowSignal Cb Ty)
    (h : sig.next_id_ + connects ops < UINT64_RANGE) :
    (FlowSignal.exec ops sig).next_id_ = sig.next_id_ + connects ops := by
  induction ops generalizing sig with
  | nil => rfl
  | cons op tl ih =>
    cases op with
    | connect_any slot =>
      simp only [connects] at h
      have hw : sig.next_id_ + 1 < UINT64_RANGE := by simp only [ConnectionId] at *; omega
      have hnext : (sig.connect_any slot).2.next_id_ = sig.next_id_ + 1 := by
        simp [FlowSignal.connect_any, Nat.mod_eq_of_lt hw]
      simp only [FlowSignal.exec, connects]
      rw [ih (sig.connect_any slot).2 (by rw [hnext]; simp only [ConnectionId] at *; omega),
        hnext]
      simp only [ConnectionId] at *
      omega
    | disconnect id =>
      exact ih (sig.disconnect id) (by simpa [connects, FlowSignal.disconnect] using h)
    | disconnectAll =>
      exact ih sig.disconnectAll (by simpa [connects, FlowSignal.disconnectAll] using h)

/-- The invariant of a dispatcher before its counter wraps: in every dispatcher reached from
a fresh one by calls of which fewer than `2 ^ 64 - 1` are `connect_any`, the keys of the map
are unique and below the counter, and the counter is not 0. -/
theorem FlowSignal.invariant_before_wrap (ops : List (Op Cb Ty))
    (h : connects ops < UINT64_RANGE - 1) :
    (FlowSignal.exec ops ({} : FlowSignal Cb Ty)).ids.Nodup
    ∧ (∀ k ∈ (FlowSignal.exec ops ({} : FlowSignal Cb Ty)).ids,
        k < (FlowSignal.exec ops ({} : FlowSignal Cb Ty)).next_id_)
    ∧ (FlowSignal.exec ops ({} : FlowSignal Cb Ty)).next_id_
        ∉ (FlowSignal.exec ops ({} : FlowSignal Cb Ty)).ids
    ∧ (FlowSignal.exec ops ({} : FlowSignal Cb Ty)).next_id_ ≠ 0 := by
  have hb : ({} : FlowSignal Cb Ty).next_id_ + connects ops < UINT64_RANGE := by
    show 1 + connects ops < UINT64_RANGE
    omega
  have hlt := FlowSignal.exec_ids_lt ops ({} : FlowSignal Cb Ty)
    (by simp [FlowSignal.ids]) hb
  have hnext := FlowSignal.exec_next_id ops ({} : FlowSignal Cb Ty) hb
  refine ⟨FlowSignal.exec_ids_nodup ops _ (by simp [FlowSignal.ids]), hlt,
    fun hmem => Nat.lt_irrefl _ (hlt _ hmem), ?_⟩
  rw [hnext]
  show 1 + connects ops ≠ 0
  omega

end Subscribers

section Claims678
variable {Cb Ty : Type} {Val : Ty → Type} {W : Type} [DecidableEq Ty]

/-- C6, as stated, fails. On a dispatcher that already has subscriber `A`, after
`connect_any(B)` followed immediately by `disconnect` of the identifier it returned (2),
`emit_any` reaches one subscriber, `A`, not zero. -/
theorem emit_after_connect_disconnect_reaches_earlier_subscriber :
    (subscriberA.connect_any (.any .B)).1 = 2
    ∧ (((subscriberA.connect_any (.any .B)).2.disconnect 2).emit_any
        Callee.call .empty ()).invoked = [(.any .A, .empty)]
    ∧ (((subscriberA.connect_any (.any .B)).2.disconnect 2).emit_any
        Callee.call .empty ()).invoked ≠ [] := by
  refine ⟨rfl, rfl, ?_⟩
  intro h
  have hlen := congrArg List.length h
  revert hlen
  decide

/-- C6, amended. After `connect_any` followed immediately by `disconnect` of the identifier
that `connect_any` returned: on a dispatcher that had no subscriber, `emit_any` reaches zero
subscribers (it invokes no slot, calls no callable, raises no fault, leaves the world as it
is); on any dispatcher, the returned identifier is no key of the map; and on a dispatcher
whose counter value was not a key of its map, the map holds the subscriptions from before
the `connect_any` (up to iteration order), so that `emit_any` reaches them and no other. -/
theorem connect_then_disconnect_restores_subscribers (sig : FlowSignal Cb Ty)
    (slot : FlowSlotAny Cb Ty) (call : Cb → StdAny Ty Val → W → Outcome W)
    (data : StdAny Ty Val) (w : W) :
    (sig.slots_ = [] →
      ((sig.connect_any slot).2.disconnect (sig.connect_any slot).1).emit_any call data w
        = ⟨[], [], w, none⟩)
    ∧ (sig.connect_any slot).1
        ∉ ((sig.connect_any slot).2.disconnect (sig.connect_any slot).1).ids
    ∧ (sig.next_id_ ∉ sig.ids →
      ((sig.connect_any slot).2.disconnect (sig.connect_any slot).1).slots_.Perm sig.slots_
      ∧ ((sig.connect_any slot).2.disconnect (sig.connect_any slot).1).snapshot.Perm
          sig.snapshot) := by
  have hrestore : sig.next_id_ ∉ sig.ids →
      ((sig.connect_any slot).2.disconnect (sig.connect_any slot).1).slots_ = sig.slots_ :=
    fun hfree => erase_emplace sig.next_id_ slot sig.slots_ hfree
  refine ⟨fun hempty => ?_, ?_, fun hfree => ?_⟩
  · have hfree : sig.next_id_ ∉ sig.ids := by simp [FlowSignal.ids, hempty]
    simp [FlowSignal.emit_any, FlowSignal.snapshot, hrestore hfree, hempty, deliver]
  · intro hmem
    obtain ⟨kv, hkv, hk⟩ := List.mem_map.1 hmem
    exact ((mem_erase _ _ kv).1 hkv).2 hk
  · have h := hrestore hfree
    exact ⟨h ▸ List.Perm.refl _, by simp only [FlowSignal.snapshot, h]; exact List.Perm.refl _⟩

/-- Witness for C6, amended: on a fresh dispatcher, and on the dispatcher with subscriber
`A`. -/
theorem connect_then_disconnect_restores_subscribers_witness :
    ((({} : FlowSignal Callee CppType).connect_any (.any .B)).2.disconnect
        (({} : FlowSignal Callee CppType).connect_any (.any .B)).1).emit_any
          Callee.call .empty () = ⟨[], [], (), none⟩
    ∧ subscriberA.next_id_ ∉ subscriberA.ids
    ∧ ((subscriberA.connect_any (.any .B)).2.disconnect
        (subscriberA.connect_any (.any .B)).1).slots_.Perm subscriberA.slots_ :=
  ⟨(connect_then_disconnect_restores_subscribers ({} : FlowSignal Callee CppType)
      (.any .B) Callee.call .empty ()).1 rfl,
    by decide,
    ((connect_then_disconnect_restores_subscribers subscriberA
      (.any .B) Callee.call .empty ()).2.2 (by decide)).1⟩

/-- C8, amended. For every dispatcher state, after `disconnectAll` the subscriber map is
empty, so a following `emit_any` invokes no slot, calls no callable and raises no fault.  The
counter keeps its value, and the next `connect_any` hands out that value.  In a dispatcher
whose keys are all below the counter, this is none of the removed identifiers, and neither is
any identifier handed out later, up to the wrap of the counter.  Every dispatcher reached
from a fresh one is of this kind while the calls before and after `disconnectAll` contain at
most `2 ^ 64 - 1` calls of `connect_any` in all: then no `connect_any` after `disconnectAll`
hands out an identifier that `disconnectAll` removed. -/
theorem disconnectAll_empties_map_keeps_counter (sig : FlowSignal Cb Ty)
    (call : Cb → StdAny Ty Val → W → Outcome W) (data : StdAny Ty Val) (w : W)
    (slot : FlowSlotAny Cb Ty) :
    sig.disconnectAll.slots_ = []
    ∧ sig.disconnectAll.emit_any call data w = ⟨[], [], w, none⟩
    ∧ sig.disconnectAll.next_id_ = sig.next_id_
    ∧ (sig.disconnectAll.connect_any slot).1 = sig.next_id_
    ∧ ((∀ k ∈ sig.ids, k < sig.next_id_) →
        (sig.disconnectAll.connect_any slot).1 ∉ sig.ids
        ∧ ∀ ops : List (Op Cb Ty), sig.next_id_ + connects ops ≤ UINT64_RANGE →
          ∀ id ∈ FlowSignal.issued ops sig.disconnectAll, id ∉ sig.ids)
    ∧ (∀ before after : List (Op Cb Ty),
        connects before + connects after ≤ UINT64_RANGE - 1 →
        ∀ id ∈ FlowSignal.issued after
            (FlowSignal.exec before ({} : FlowSignal Cb Ty)).disconnectAll,
          id ∉ (FlowSignal.exec before ({} : FlowSignal Cb Ty)).ids) := by
  have key : ∀ (s : FlowSignal Cb Ty), (∀ k ∈ s.ids, k < s.next_id_) →
      ∀ ops : List (Op Cb Ty), s.next_id_ + connects ops ≤ UINT64_RANGE →
        ∀ id ∈ FlowSignal.issued ops s.disconnectAll, id ∉ s.ids := by
    intro s hlt ops hops id hid hmem
    have hge := (FlowSignal.issued_increasing ops s.disconnectAll hops).2 id hid
    have hlt1 := hlt id hmem
    simp only [FlowSignal.disconnectAll, ConnectionId] at hge hlt1
    omega
  refine ⟨rfl, rfl, rfl, rfl,
    fun hlt => ⟨fun hmem => Nat.lt_irrefl _ (hlt _ hmem), key sig hlt⟩, ?_⟩
  intro before after hb id hid
  by_cases h0 : connects after = 0
  · rw [FlowSignal.issued_of_no_connect after _ h0] at hid
    cases hid
  · have hbefore : connects before < UINT64_RANGE - 1 := by omega
    have hone : (1 : Nat) + connects before < UINT64_RANGE := by omega
    have hnext := FlowSignal.exec_next_id before ({} : FlowSignal Cb Ty) hone
    refine key _ (FlowSignal.invariant_before_wrap before hbefore).2.1 after ?_ id hid
    rw [hnext]
    show (1 : Nat) + connects before + connects after ≤ UINT64_RANGE
    omega

/-- Witness for C8, amended: the dispatcher with subscribers `A` (key 1) and `B` (key 2) and
counter 3; after `disconnectAll` the next identifier is 3, which is not one of the removed
identifiers 1 and 2. -/
theorem disconnectAll_empties_map_keeps_counter_witness :
    (∀ k ∈ subscribersAB.ids, k < subscribersAB.next_id_)
    ∧ subscribersAB.ids = [1, 2]
    ∧ subscribersAB.next_id_ = 3
    ∧ subscribersAB.disconnectAll.slots_ = []
    ∧ (subscribersAB.disconnectAll.connect_any (.any .A)).1 = 3
    ∧ (subscribersAB.disconnectAll.connect_any (.any .A)).1 ∉ subscribersAB.ids :=
  ⟨by decide, rfl, rfl,
    (disconnectAll_empties_map_keeps_counter subscribersAB
      Callee.call .empty () (.any .A)).1,
    (disconnectAll_empties_map_keeps_counter subscribersAB
      Callee.call .empty () (.any .A)).2.2.2.1,
    ((disconnectAll_empties_map_keeps_counter subscribersAB
      Callee.call .empty () (.any .A)).2.2.2.2.1 (by decide)).1⟩

end Claims678

section Claim7
variable {Cb Ty : Type}

/-- C7. `disconnect(id)` removes the subscription with key `id`: the entries left are those
of the map with another key, in the same order, and in a map with unique keys exactly one
entry goes when `id` is present.  The counter is unchanged.  If `id` is not a key of the map
the dispatcher is unchanged.  `disconnect(id)` twice gives the same dispatcher as once. -/
theorem disconnect_removes_exactly_id (sig : FlowSignal Cb Ty) (id : ConnectionId) :
    (∀ kv, kv ∈ (sig.disconnect id).slots_ ↔ kv ∈ sig.slots_ ∧ kv.1 ≠ id)
    ∧ id ∉ (sig.disconnect id).ids
    ∧ (sig.disconnect id).slots_.Sublist sig.slots_
    ∧ (sig.ids.Nodup → id ∈ sig.ids →
        (sig.disconnect id).slots_.length + 1 = sig.slots_.length)
    ∧ (sig.disconnect id).next_id_ = sig.next_id_
    ∧ (id ∉ sig.ids → sig.disconnect id = sig)
    ∧ (sig.disconnect id).disconnect id = sig.disconnect id := by
  have hnot : id ∉ (sig.disconnect id).ids := by
    intro hmem
    obtain ⟨kv, hkv, hk⟩ := List.mem_map.1 hmem
    exact ((mem_erase id sig.slots_ kv).1 hkv).2 hk
  refine ⟨fun kv => mem_erase id sig.slots_ kv, hnot, List.filter_sublist _,
    fun hnd hin => length_erase id sig.slots_ hnd hin, rfl, fun hid => ?_, ?_⟩
  · cases sig with
    | mk slots next =>
      simp only [FlowSignal.disconnect]
      rw [erase_of_not_mem id slots hid]
  · have h2 := erase_of_not_mem id (sig.disconnect id).slots_ hnot
    simp only [FlowSignal.disconnect] at h2 ⊢
    rw [h2]

end Claim7

section Claim7Witness

/-- Witness for C7: on the dispatcher with subscribers `A` (key 1) and `B` (key 2),
`disconnect(1)` leaves one entry, and `disconnect(7)` changes nothing. -/
theorem disconnect_removes_exactly_id_witness :
    subscribersAB.ids.Nodup ∧ 1 ∈ subscribersAB.ids ∧ 7 ∉ subscribersAB.ids
    ∧ (subscribersAB.disconnect 1).slots_.length + 1 = subscribersAB.slots_.length
    ∧ subscribersAB.disconnect 7 = subscribersAB :=
  ⟨by decide, by decide, by decide,
    (disconnect_removes_exactly_id subscribersAB 1).2.2.2.1 (by decide) (by decide),
    (disconnect_removes_exactly_id subscribersAB 7).2.2.2.2.2.1 (by decide)⟩

end Claim7Witness

/-! ## Releasing a connection handle -/

section Release
variable {Cb Ty : Type}

theorem Connection.reset_of_not_active (c : Connection) (h : Heap Cb Ty)
    (hc : c.active = false) : c.reset h = .ok (c, h) := by
  unfold Connection.reset
  cases ho : c.owner_ with
  | none => rfl
  | some p =>
    have hid : c.id_ = 0 := by simpa [Connection.active, ho] using hc
    simp [hid]

theorem Connection.reset_of_active (c : Connection) (h : Heap Cb Ty) (p : Addr)
    (cell : SharedCell Cb Ty) (ho : c.owner_ = some p) (hid : c.id_ ≠ 0)
    (hp : h p = some cell) :
    c.reset h = .ok ({ owner_ := none, id_ := 0 },
      Function.update h p (some { cell with obj := cell.obj.disconnect c.id_ })) := by
  simp [Connection.reset, ho, hid, Heap.disconnect, hp]

theorem Connection.reset_of_dangling (c : Connection) (h : Heap Cb Ty) (p : Addr)
    (ho : c.owner_ = some p) (hid : c.id_ ≠ 0) (hp : h p = none) :
    c.reset h = .error (.useAfterFree p) := by
  simp [Connection.reset, ho, hid, Heap.disconnect, hp]

theorem Connection.resetTimes_inert (n : Nat) (h : Heap Cb Ty) :
    Connection.resetTimes n { owner_ := none, id_ := 0 } h
      = .ok ({ owner_ := none, id_ := 0 }, h) := by
  induction n with
  | zero => rfl
  | succ n ih => simp only [Connection.resetTimes, Connection.reset]; exact ih

/-- C9. For every handle and memory.  If the handle is active (`owner_` not null, `id_` not
0), `reset` is the call `owner_->disconnect(id_)` followed by the handle becoming inert: on a
live dispatcher the outcome is the inert handle and the memory in which that dispatcher,
and no other, has had `disconnect(id_)` applied.  If the handle is not active, in particular
if it is inert, `reset` changes neither the handle nor the memory.  So `reset` twice is
`reset` once, and the default-constructed handle is inert. -/
theorem reset_disconnects_then_inert (c : Connection) (h : Heap Cb Ty) :
    (∀ p, c.owner_ = some p → c.id_ ≠ 0 →
      c.reset h = (match Heap.disconnect p c.id_ h with
        | .ok h1 => .ok ({ owner_ := none, id_ := 0 }, h1)
        | .error e => .error e))
    ∧ (∀ p cell, c.owner_ = some p → c.id_ ≠ 0 → h p = some cell →
      c.reset h = .ok ({ owner_ := none, id_ := 0 },
        Function.update h p (some { cell with obj := cell.obj.disconnect c.id_ })))
    ∧ (c.active = false → c.reset h = .ok (c, h))
    ∧ (c.inert = true → c.reset h = .ok (c, h))
    ∧ (∀ r, c.reset h = .ok r → r.1.inert = true ∨ r = (c, h))
    ∧ Connection.resetTimes 2 c h = Connection.resetTimes 1 c h
    ∧ ({} : Connection).inert = true
    ∧ ({} : Connection).active = false
    ∧ ({} : Connection).reset h = .ok ({}, h) := by
  have hinert : c.inert = true → c.active = false := by
    intro hi
    cases ho : c.owner_ with
    | none => simp [Connection.active, ho]
    | some p => simp [Connection.inert, ho] at hi
  refine ⟨?_, fun p cell ho hid hp => Connection.reset_of_active c h p cell ho hid hp,
    Connection.reset_of_not_active c h,
    fun hi => Connection.reset_of_not_active c h (hinert hi), ?_, ?_, rfl, rfl, rfl⟩
  · intro p ho hid
    simp [Connection.reset, ho, hid]
  · intro r hr
    cases hact : c.active with
    | false =>
      right
      rw [Connection.reset_of_not_active c h hact] at hr
      exact (Except.ok.inj hr).symm
    | true =>
      left
      obtain ⟨p, ho⟩ : ∃ p, c.owner_ = some p := by
        cases ho : c.owner_ with
        | none => simp [Connection.active, ho] at hact
        | some p => exact ⟨p, rfl⟩
      have hid : c.id_ ≠ 0 := by simpa [Connection.active, ho] using hact
      cases hp : h p with
      | none => rw [Connection.reset_of_dangling c h p ho hid hp] at hr; cases hr
      | some cell =>
        rw [Connection.reset_of_active c h p cell ho hid hp] at hr
        rw [← Except.ok.inj hr]
        rfl
  · cases hact : c.active with
    | false =>
      simp [Connection.resetTimes, Connection.reset_of_not_active c h hact]
    | true =>
      obtain ⟨p, ho⟩ : ∃ p, c.owner_ = some p := by
        cases ho : c.owner_ with
        | none => simp [Connection.active, ho] at hact
        | some p => exact ⟨p, rfl⟩
      have hid : c.id_ ≠ 0 := by simpa [Connection.active, ho] using hact
      cases hp : h p with
      | none => simp [Connection.resetTimes, Connection.reset_of_dangling c h p ho hid hp]
      | some cell =>
        have h1 := Connection.reset_of_active c h p cell ho hid hp
        simp only [Connection.resetTimes, h1]
        rfl

/-- Witness for C9: the handle `Connection{1, 2}` on the dispatcher with subscribers `A`
(key 1) and `B` (key 2); `reset` removes `B` and leaves the handle inert. -/
theorem reset_disconnects_then_inert_witness :
    (∃ h1 : Heap Callee CppType,
      Connection.reset { owner_ := some 1, id_ := 2 } dispatcherAB = .ok ({}, h1)
      ∧ (h1 1).map (fun cell => cell.obj.ids) = some [1]) :=
  ⟨_, (reset_disconnects_then_inert { owner_ := some 1, id_ := 2 } dispatcherAB).2.1
      1 ⟨1, subscribersAB⟩ rfl (by decide) rfl, by decide⟩

end Release

section ReleaseVsDisconnect
variable {Cb Ty : Type}

/-- C10, amended. Let a dispatcher live at `p`, with a counter that is not 0 (the counter
starts at 1 and is not 0 in any dispatcher reached from a fresh one by calls of which fewer
than `2 ^ 64 - 1` are `connect_any`), and let `c` be the handle that `connect_any` returns
on it.
Releasing `c`, by `reset` or by its destructor, leaves the memory exactly as the single call
`p->disconnect(c.id_)` leaves it: the dispatcher at `p` is the one after `connect_any` with
`disconnect(c.id_)` applied once, every other dispatcher is untouched, and the handle is
inert.  Any number of further `reset` calls leaves that memory and the inert handle as they
are. -/
theorem release_is_one_disconnect (h : Heap Cb Ty) (p : Addr) (cell : SharedCell Cb Ty)
    (slot : FlowSlotAny Cb Ty) (hp : h p = some cell) (hid : cell.obj.next_id_ ≠ 0) :
    ∃ (c : Connection) (h1 h2 : Heap Cb Ty),
      Heap.connect_any p slot h = .ok (c, h1)
      ∧ c = { owner_ := some p, id_ := cell.obj.next_id_ }
      ∧ Heap.disconnect p c.id_ h1 = .ok h2
      ∧ h2 = Function.update h p
          (some { cell with obj := (cell.obj.connect_any slot).2.disconnect c.id_ })
      ∧ c.reset h1 = .ok ({}, h2)
      ∧ c.destroy h1 = .ok h2
      ∧ (∀ n, Connection.resetTimes (n + 1) c h1 = .ok ({}, h2))
      ∧ (∀ n, Connection.resetTimes n {} h2 = .ok ({}, h2)) := by
  have hconn : Heap.connect_any p slot h
      = .ok ({ owner_ := some p, id_ := cell.obj.next_id_ },
          Function.update h p (some { cell with obj := (cell.obj.connect_any slot).2 })) := by
    simp [Heap.connect_any, hp, FlowSignal.connect_any]
  have hdisc : Heap.disconnect p cell.obj.next_id_
      (Function.update h p (some { cell with obj := (cell.obj.connect_any slot).2 }))
      = .ok (Function.update h p (some { cell with
          obj := (cell.obj.connect_any slot).2.disconnect cell.obj.next_id_ })) := by
    simp [Heap.disconnect]
  have hreset : Connection.reset { owner_ := some p, id_ := cell.obj.next_id_ }
      (Function.update h p (some { cell with obj := (cell.obj.connect_any slot).2 }))
      = .ok ({}, Function.update h p (some { cell with
          obj := (cell.obj.connect_any slot).2.disconnect cell.obj.next_id_ })) := by
    simp only [Connection.reset, hdisc]
    simp [hid]
  refine ⟨_, _, _, hconn, rfl, hdisc, rfl, hreset, ?_, ?_, ?_⟩
  · simp only [Connection.destroy, hreset]
  · intro n
    simp only [Connection.resetTimes, hreset]
    exact Connection.resetTimes_inert n _
  · intro n
    exact Connection.resetTimes_inert n _

/-- Witness for C10, amended: `connect_any(A)` on the fresh dispatcher at address 1 returns
the handle `Connection{1, 1}`; releasing it leaves the dispatcher with an empty map. -/
theorem release_is_one_disconnect_witness :
    oneDispatcher 1 = some ⟨1, {}⟩
    ∧ ∃ (c : Connection) (h1 h2 : Heap Callee CppType),
      Heap.connect_any 1 (.any .A) oneDispatcher = .ok (c, h1)
      ∧ c = { owner_ := some 1, id_ := 1 }
      ∧ Heap.disconnect 1 c.id_ h1 = .ok h2
      ∧ c.reset h1 = .ok ({}, h2)
      ∧ c.destroy h1 = .ok h2 := by
  refine ⟨rfl, ?_⟩
  obtain ⟨c, h1, h2, hc, hceq, hd, _, hr, hdes, _, _⟩ :=
    release_is_one_disconnect oneDispatcher 1 ⟨1, {}⟩ (.any Callee.A) rfl (by decide)
  exact ⟨c, h1, h2, hc, hceq, hd, hr, hdes⟩

end ReleaseVsDisconnect

/-! ## Transfer of a connection handle -/

section Transfer
variable {Cb Ty : Type}

theorem find_erase_ne {α : Type} (id k : ConnectionId) (m : List (ConnectionId × α))
    (hne : k ≠ id) :
    (erase k m).find? (fun kv => decide (kv.1 = id)) = m.find? (fun kv => decide (kv.1 = id)) := by
  induction m with
  | nil => rfl
  | cons kv tl ih =>
    by_cases hk : kv.1 = k
    · have hcons : erase k (kv :: tl) = erase k tl := List.filter_cons_of_neg (by simp [hk])
      have hid : ¬ kv.1 = id := fun h => hne (hk ▸ h)
      rw [hcons, ih, List.find?_cons_of_neg _ (by simpa using hid)]
    · have hcons : erase k (kv :: tl) = kv :: erase k tl :=
        List.filter_cons_of_pos (by simp [hk])
      rw [hcons]
      by_cases hid : kv.1 = id
      · rw [List.find?_cons_of_pos _ (by simpa using hid),
          List.find?_cons_of_pos _ (by simpa using hid)]
      · rw [List.find?_cons_of_neg _ (by simpa using hid),
          List.find?_cons_of_neg _ (by simpa using hid), ih]

theorem find_erase_self {α : Type} (id : ConnectionId) (m : List (ConnectionId × α)) :
    (erase id m).find? (fun kv => decide (kv.1 = id)) = none := by
  rw [List.find?_eq_none]
  intro kv hkv
  have := ((mem_erase id m kv).1 hkv).2
  simpa using this

/-- A `disconnect` of another key leaves the callback stored under `id` in place. -/
theorem FlowSignal.slotAt_disconnect_ne (id k : ConnectionId) (sig : FlowSignal Cb Ty)
    (hne : k ≠ id) : (sig.disconnect k).slotAt id = sig.slotAt id := by
  simp only [FlowSignal.slotAt, FlowSignal.disconnect, find_erase_ne id k sig.slots_ hne]

/-- After `disconnect(id)` nothing is stored under `id`. -/
theorem FlowSignal.slotAt_disconnect_self (id : ConnectionId) (sig : FlowSignal Cb Ty) :
    (sig.disconnect id).slotAt id = none := by
  simp only [FlowSignal.slotAt, FlowSignal.disconnect, find_erase_self id sig.slots_,
    Option.map_none']

/-- What `reset` leaves of a subscription that is not the one of the handle. -/
theorem Connection.reset_slotAt (c : Connection) (h : Heap Cb Ty)
    (r : Connection × Heap Cb Ty) (hr : c.reset h = .ok r) (p : Addr) (id : ConnectionId)
    (hne : ¬ (c.owner_ = some p ∧ c.id_ = id)) :
    Heap.slotAt p id r.2 = Heap.slotAt p id h := by
  cases hact : c.active with
  | false =>
    rw [Connection.reset_of_not_active c h hact] at hr
    rw [← Except.ok.inj hr]
  | true =>
    obtain ⟨q, ho⟩ : ∃ q, c.owner_ = some q := by
      cases ho : c.owner_ with
      | none => simp [Connection.active, ho] at hact
      | some q => exact ⟨q, rfl⟩
    have hid : c.id_ ≠ 0 := by simpa [Connection.active, ho] using hact
    cases hq : h q with
    | none => rw [Connection.reset_of_dangling c h q ho hid hq] at hr; cases hr
    | some cell =>
      rw [Connection.reset_of_active c h q cell ho hid hq] at hr
      rw [← Except.ok.inj hr]
      by_cases hqp : p = q
      · subst hqp
        have hk : c.id_ ≠ id := fun hk => hne ⟨ho, hk⟩
        simp only [Heap.slotAt, Function.update_same, hq]
        exact FlowSignal.slotAt_disconnect_ne id c.id_ cell.obj hk
      · simp only [Heap.slotAt, Function.update_noteq hqp]

end Transfer

section TransferClaims
variable {Cb Ty : Type}

/-- C20. Let `i` and `j` be two different handle objects, handle `i` active and bound to the
live dispatcher at `p`.  The move assignment `hs[i] = std::move(hs[j])` returns, and
afterwards: the dispatcher at `p` is the old one with `disconnect` of handle `i`'s old
identifier applied (the entries left are exactly those with another key, the counter is the
same); every other dispatcher is untouched; handle `i` holds handle `j`'s former pointer and
identifier; handle `j` is inert; every other handle is as before.  The subscription of
handle `j` is not the one removed, unless both handles were bound to the same subscription.
Assigning a handle object to itself changes neither the handles nor the memory. -/
theorem move_assign_releases_target_first (i j : Nat) (hs : Handles) (heap : Heap Cb Ty)
    (p : Addr) (cell : SharedCell Cb Ty) (hij : i ≠ j) (hact : (hs i).active = true)
    (ho : (hs i).owner_ = some p) (hp : heap p = some cell) :
    ∃ hs1 heap1, Handles.moveAssign i j hs heap = .ok (hs1, heap1)
      ∧ heap1 = Function.update heap p
          (some { cell with obj := cell.obj.disconnect (hs i).id_ })
      ∧ (∀ kv, kv ∈ (cell.obj.disconnect (hs i).id_).slots_
          ↔ kv ∈ cell.obj.slots_ ∧ kv.1 ≠ (hs i).id_)
      ∧ (cell.obj.disconnect (hs i).id_).next_id_ = cell.obj.next_id_
      ∧ hs1 i = { owner_ := (hs j).owner_, id_ := (hs j).id_ }
      ∧ hs1 j = { owner_ := none, id_ := 0 }
      ∧ (∀ k, k ≠ i → k ≠ j → hs1 k = hs k)
      ∧ (∀ q, ¬ ((hs i).owner_ = some q ∧ (hs i).id_ = (hs j).id_) →
          Heap.slotAt q (hs j).id_ heap1 = Heap.slotAt q (hs j).id_ heap)
      ∧ Handles.moveAssign i i hs heap = .ok (hs, heap)
      ∧ Handles.moveAssign j j hs heap = .ok (hs, heap) := by
  have hid : (hs i).id_ ≠ 0 := by simpa [Connection.active, ho] using hact
  have hreset := Connection.reset_of_active (hs i) heap p cell ho hid hp
  have hmove : Handles.moveAssign i j hs heap
      = .ok (Function.update (Function.update hs i
            { owner_ := (hs j).owner_, id_ := (hs j).id_ }) j { owner_ := none, id_ := 0 },
          Function.update heap p (some { cell with obj := cell.obj.disconnect (hs i).id_ })) := by
    simp only [Handles.moveAssign, hij, if_false, Connection.moveAssign, hreset]
  refine ⟨_, _, hmove, rfl, fun kv => mem_erase _ _ kv, rfl, ?_, ?_, ?_, ?_, ?_, ?_⟩
  · simp [Function.update_noteq hij]
  · simp
  · intro k hki hkj
    simp [Function.update_noteq hkj, Function.update_noteq hki]
  · intro q hne
    exact Connection.reset_slotAt (hs i) heap _ hreset q (hs j).id_ hne
  · simp [Handles.moveAssign]
  · simp [Handles.moveAssign]

/-- Witness for C20: handles 0 and 1 are bound to subscriptions 1 (`A`) and 2 (`B`) of the
dispatcher at address 1; after `hs[0] = std::move(hs[1])` subscription 1 is gone and
subscription 2 is still there. -/
theorem move_assign_releases_target_first_witness :
    (0 : Nat) ≠ 1 ∧ (twoHandles 0).active = true ∧ (twoHandles 0).owner_ = some 1
    ∧ ∃ hs1 heap1, Handles.moveAssign 0 1 twoHandles dispatcherAB = .ok (hs1, heap1)
      ∧ hs1 0 = { owner_ := some 1, id_ := 2 }
      ∧ hs1 1 = { owner_ := none, id_ := 0 }
      ∧ Heap.slotAt 1 1 heap1 = none
      ∧ Heap.slotAt 1 2 heap1 = some (.any .B) := by
  refine ⟨by decide, rfl, rfl, ?_⟩
  obtain ⟨hs1, heap1, hmove, hheap, _, _, h0, h1, _, _, _, _⟩ :=
    move_assign_releases_target_first 0 1 twoHandles dispatcherAB 1 ⟨1, subscribersAB⟩
      (by decide) rfl rfl rfl
  refine ⟨hs1, heap1, hmove, h0, h1, ?_, ?_⟩
  · rw [hheap]; decide
  · rw [hheap]; decide

end TransferClaims

/-! ## Emission by name, unregistration, enumeration -/

section Registry
variable {Cb Ty : Type}

theorem FlowHub.length_insert (name : String) (p : Addr) (m : List (String × Addr)) :
    (FlowHub.insert name p m).length = m.length + 1 := by
  induction m with
  | nil => rfl
  | cons kq rest ih =>
    obtain ⟨k, q⟩ := kq
    simp only [FlowHub.insert]
    split
    · simp
    · simp [ih]

theorem FlowHub.keys_insert_perm (name : String) (p : Addr) (m : List (String × Addr)) :
    ((FlowHub.insert name p m).map Prod.fst).Perm (name :: m.map Prod.fst) := by
  induction m with
  | nil => exact List.Perm.refl _
  | cons kq rest ih =>
    obtain ⟨k, q⟩ := kq
    simp only [FlowHub.insert]
    split
    · exact List.Perm.refl _
    · simp only [List.map_cons]
      exact (List.Perm.cons k ih).trans (List.Perm.swap name k _)

theorem FlowHub.find_isSome_iff (name : String) (m : List (String × Addr)) :
    (FlowHub.find name m).isSome = true ↔ name ∈ m.map Prod.fst := by
  induction m with
  | nil => simp [FlowHub.find]
  | cons kq rest ih =>
    obtain ⟨k, q⟩ := kq
    simp only [FlowHub.find, List.map_cons, List.mem_cons]
    by_cases hk : k = name
    · simp [hk]
    · have hk2 : ¬ name = k := fun h => hk h.symm
      simp [hk, hk2, ih]

theorem FlowHub.find_eq_none_iff (name : String) (m : List (String × Addr)) :
    FlowHub.find name m = none ↔ name ∉ m.map Prod.fst := by
  rw [← FlowHub.find_isSome_iff]
  cases FlowHub.find name m <;> simp

theorem FlowHub.find_eraseName_self (name : String) (m : List (String × Addr)) :
    FlowHub.find name (FlowHub.eraseName name m) = none := by
  rw [FlowHub.find_eq_none_iff]
  intro hmem
  obtain ⟨kv, hkv, hk⟩ := List.mem_map.1 hmem
  have := (List.mem_filter.1 hkv).2
  simp [hk] at this

theorem FlowHub.eraseName_of_not_found (name : String) (m : List (String × Addr))
    (h : FlowHub.find name m = none) : FlowHub.eraseName name m = m := by
  rw [FlowHub.find_eq_none_iff] at h
  unfold FlowHub.eraseName
  rw [List.filter_eq_self]
  intro kv hkv
  have : kv.1 ≠ name := fun heq => h (heq ▸ List.mem_map_of_mem Prod.fst hkv)
  simpa using this

end Registry

section EmitByName
variable {Cb Ty : Type} {Val : Ty → Type} {W : Type} [DecidableEq Ty]

/-- C12. For a name that is not in the registry, for every payload (present, as in
`emit(name, value)`, or empty, as in `emit(name)`): the emission returns, invokes no slot,
calls no callable and raises no fault; afterwards the registry is the old one with one more
entry, which binds the name to a new dispatcher whose subscriber map is empty and whose only
owner is the registry; every other entry and every other dispatcher is as before, and the
number of registered names has grown by one. -/
theorem emit_unregistered_name_creates_empty_dispatcher
    (call : Cb → StdAny Ty Val → Process Cb Ty × W → Outcome (Process Cb Ty × W))
    (name : String) (data : StdAny Ty Val) (st : Process Cb Ty) (w : W)
    (hnew : FlowHub.find name st.map_ = none) :
    ∃ d, FlowBridge.emitWith call name data st w = .ok d
      ∧ d.invoked = [] ∧ d.calls = [] ∧ d.fault = none ∧ d.world.2 = w
      ∧ d.world.1.map_ = FlowHub.insert name st.brk st.map_
      ∧ FlowHub.find name d.world.1.map_ = some st.brk
      ∧ d.world.1.heap st.brk = some ⟨1, { slots_ := [], next_id_ := 1 }⟩
      ∧ (∀ other, other ≠ name →
          FlowHub.find other d.world.1.map_ = FlowHub.find other st.map_)
      ∧ (∀ q, q ≠ st.brk → d.world.1.heap q = st.heap q)
      ∧ FlowBridge.signalCount d.world.1 = FlowBridge.signalCount st + 1
      ∧ (∀ (T : Ty) (v : Val T),
          FlowBridge.emit call name T v st w
            = FlowBridge.emitWith call name (.holding T v) st w)
      ∧ FlowBridge.emitEmpty call name st w = FlowBridge.emitWith call name .empty st w := by
  have hg : FlowHub.getOrCreate name st
      = (st.brk, { map_ := FlowHub.insert name st.brk st.map_,
                   heap := Function.update st.heap st.brk (some ⟨2, {}⟩),
                   brk := st.brk + 1 }) := by
    simp [FlowHub.getOrCreate, hnew, Heap.retain]
  have he : FlowBridge.emitWith call name data st w
      = .ok ⟨[], [], ({ map_ := FlowHub.insert name st.brk st.map_,
                        heap := Function.update st.heap st.brk (some ⟨1, {}⟩),
                        brk := st.brk + 1 }, w), none⟩ := by
    simp [FlowBridge.emitWith, hg, FlowSignal.emit_any, FlowSignal.snapshot, deliver,
      Heap.release]
  refine ⟨_, he, rfl, rfl, rfl, rfl, rfl, FlowHub.find_insert name st.brk st.map_ hnew, ?_,
    fun other hne => FlowHub.find_insert_ne other name st.brk st.map_ (fun h => hne h.symm),
    fun q hq => ?_, ?_, fun T v => rfl, rfl⟩
  · simp
  · simp [Function.update_noteq hq]
  · simp [FlowBridge.signalCount, FlowHub.count, FlowHub.length_insert]

/-- Witness for C12: in the process where only `"a"` is registered, `emit("b", 42)`. -/
theorem emit_unregistered_name_creates_empty_dispatcher_witness :
    FlowHub.find "b" processA.map_ = none
    ∧ FlowBridge.signalCount processA = 1
    ∧ ∃ d, FlowBridge.emit Callee.callIn "b" .int (42 : Int) processA ()  = .ok d
      ∧ d.invoked = [] ∧ d.fault = none
      ∧ FlowBridge.signalCount d.world.1 = 2 := by
  refine ⟨by decide, by decide, ?_⟩
  obtain ⟨d, hd, hinv, _, hfault, _, _, _, _, _, _, hcount, _, _⟩ :=
    emit_unregistered_name_creates_empty_dispatcher Callee.callIn "b"
      (.holding .int (42 : Int)) processA () (by decide)
  exact ⟨d, hd, hinv, hfault, hcount⟩

end EmitByName

section Unregister
variable {Cb Ty : Type}

theorem FlowHub.unregisterSignal_not_found (name : String) (st : Process Cb Ty)
    (h : FlowHub.find name st.map_ = none) : FlowHub.unregisterSignal name st = st := by
  simp [FlowHub.unregisterSignal, h]

theorem FlowHub.map_unregisterSignal (name : String) (st : Process Cb Ty) :
    (FlowHub.unregisterSignal name st).map_ = FlowHub.eraseName name st.map_ := by
  cases h : FlowHub.find name st.map_ with
  | some p => simp [FlowHub.unregisterSignal, h]
  | none => simp [FlowHub.unregisterSignal, h, FlowHub.eraseName_of_not_found name _ h]

/-- What `Heap.release` leaves at an address: the same dispatcher with one owner fewer, or
nothing; other addresses are untouched. -/
theorem Heap.release_obj (p q : Addr) (h : Heap Cb Ty) (cell1 : SharedCell Cb Ty)
    (hq : Heap.release p h q = some cell1) :
    ∃ cell, h q = some cell ∧ cell1.obj = cell.obj := by
  unfold Heap.release at hq
  cases hp : h p with
  | none => rw [hp] at hq; exact ⟨cell1, hq, rfl⟩
  | some cell =>
    rw [hp] at hq
    by_cases hqp : q = p
    · subst hqp
      by_cases hc : cell.use_count ≤ 1
      · simp [hc] at hq
      · simp only [hc, if_false, Function.update_same, Option.some.injEq] at hq
        exact ⟨cell, hp, by rw [← hq]⟩
    · by_cases hc : cell.use_count ≤ 1
      · simp only [hc, if_true, Function.update_noteq hqp] at hq
        exact ⟨cell1, hq, rfl⟩
      · simp only [hc, if_false, Function.update_noteq hqp] at hq
        exact ⟨cell1, hq, rfl⟩

/-- C13. For every process and name, `unregisterSignal(name)` removes the entry of `name`,
leaves the entry of every other name as it is, changes nothing when `name` is not
registered, and is idempotent.  It modifies no dispatcher: a dispatcher that exists
afterwards has the subscriber map and counter it had, and the dispatcher that was bound to
`name` survives in this way when it has another owner.  But when the registry entry is its
only owner the dispatcher is destroyed together with its subscriber map: after
`connect_any("x", A)` in an empty process the dispatcher at address 1 holds subscription 1
and has use count 1, and after `unregisterSignal("x")` there is no dispatcher at address 1. -/
theorem unregisterSignal_erases_entry_and_may_destroy_dispatcher :
    (∀ (Cb Ty : Type) (name : String) (st : Process Cb Ty),
      FlowHub.find name (FlowBridge.unregisterSignal name st).map_ = none
      ∧ (∀ other, other ≠ name →
          FlowHub.find other (FlowBridge.unregisterSignal name st).map_
            = FlowHub.find other st.map_)
      ∧ (FlowBridge.unregisterSignal name st).map_.Sublist st.map_
      ∧ (FlowHub.find name st.map_ = none → FlowBridge.unregisterSignal name st = st)
      ∧ FlowBridge.unregisterSignal name (FlowBridge.unregisterSignal name st)
          = FlowBridge.unregisterSignal name st
      ∧ (∀ q cell1, (FlowBridge.unregisterSignal name st).heap q = some cell1 →
          ∃ cell, st.heap q = some cell ∧ cell1.obj = cell.obj)
      ∧ (∀ p cell, FlowHub.find name st.map_ = some p → st.heap p = some cell →
          2 ≤ cell.use_count →
          (FlowBridge.unregisterSignal name st).heap p
            = some { cell with use_count := cell.use_count - 1 }))
    ∧ ∃ (c : Connection) (st1 : Process Callee CppType),
        FlowBridge.connect_any "x" (.any .A) {} = .ok (c, st1)
        ∧ FlowHub.find "x" st1.map_ = some 1
        ∧ st1.heap 1 = some ⟨1, { slots_ := [(1, .any .A)], next_id_ := 2 }⟩
        ∧ (FlowBridge.unregisterSignal "x" st1).heap 1 = none := by
  constructor
  · intro Cb Ty name st
    have hmap := FlowHub.map_unregisterSignal name st
    have hnone : FlowHub.find name (FlowHub.unregisterSignal name st).map_ = none := by
      rw [hmap]; exact FlowHub.find_eraseName_self name st.map_
    refine ⟨hnone, fun other hne => ?_, ?_, FlowHub.unregisterSignal_not_found name st,
      FlowHub.unregisterSignal_not_found name _ hnone, fun q cell1 hq => ?_,
      fun p cell hf hp hc => ?_⟩
    · show FlowHub.find other (FlowHub.unregisterSignal name st).map_ = _
      rw [hmap]
      exact FlowHub.find_eraseName_ne other name st.map_ (fun h => hne h.symm)
    · show (FlowHub.unregisterSignal name st).map_.Sublist st.map_
      rw [hmap]
      exact List.filter_sublist _
    · cases hf : FlowHub.find name st.map_ with
      | none =>
        have hst : FlowBridge.unregisterSignal name st = st :=
          FlowHub.unregisterSignal_not_found name st hf
        rw [hst] at hq
        exact ⟨cell1, hq, rfl⟩
      | some p =>
        have hh : (FlowBridge.unregisterSignal name st).heap = Heap.release p st.heap := by
          simp [FlowBridge.unregisterSignal, FlowHub.unregisterSignal, hf]
        rw [hh] at hq
        exact Heap.release_obj p q st.heap cell1 hq
    · have hc1 : ¬ cell.use_count ≤ 1 := by omega
      simp [FlowBridge.unregisterSignal, FlowHub.unregisterSignal, hf, Heap.release, hp, hc1]
  · have hc : FlowBridge.connect_any "x" (FlowSlotAny.any Callee.A) ({} : Process Callee CppType)
        = .ok ({ owner_ := some 1, id_ := 1 },
            { map_ := [("x", 1)],
              heap := Function.update (fun _ => none) 1
                (some ⟨1, { slots_ := [(1, .any .A)], next_id_ := 2 }⟩),
              brk := 2 }) := by
      simp [FlowBridge.connect_any, FlowHub.getOrCreate, FlowHub.find,
        FlowHub.insert, Heap.connect_any, Heap.retain, Heap.release, FlowSignal.connect_any,
        emplace, UINT64_RANGE]
    refine ⟨_, _, hc, ?_, ?_, ?_⟩
    · simp [FlowHub.find]
    · simp
    · simp [FlowBridge.unregisterSignal, FlowHub.unregisterSignal, FlowHub.find, Heap.release]

end Unregister

section Enumeration
variable {Cb Ty : Type}

theorem FlowHub.keys_nodup_getOrCreate (name : String) (st : Process Cb Ty)
    (hkeys : (st.map_.map Prod.fst).Nodup) :
    ((FlowHub.getOrCreate name st).2.map_.map Prod.fst).Nodup := by
  cases h : FlowHub.find name st.map_ with
  | some p => simpa [FlowHub.getOrCreate, h] using hkeys
  | none =>
    have hnot := (FlowHub.find_eq_none_iff name st.map_).1 h
    have hperm := FlowHub.keys_insert_perm name st.brk st.map_
    simp only [FlowHub.getOrCreate, h]
    exact hperm.nodup_iff.2 (List.nodup_cons.2 ⟨hnot, hkeys⟩)

theorem FlowHub.keys_nodup_unregisterSignal (name : String) (st : Process Cb Ty)
    (hkeys : (st.map_.map Prod.fst).Nodup) :
    ((FlowHub.unregisterSignal name st).map_.map Prod.fst).Nodup := by
  rw [FlowHub.map_unregisterSignal]
  exact (List.Sublist.map Prod.fst (List.filter_sublist _)).nodup hkeys

/-- The keys of the registry map are unique in every process reached by calls on the hub. -/
theorem FlowHub.keys_nodup_run (calls : List HubCall) (st : Process Cb Ty)
    (hkeys : (st.map_.map Prod.fst).Nodup) :
    ((FlowHub.run calls st).map_.map Prod.fst).Nodup := by
  induction calls generalizing st with
  | nil => exact hkeys
  | cons call tl ih =>
    cases call with
    | getOrCreate name => exact ih _ (FlowHub.keys_nodup_getOrCreate name st hkeys)
    | unregisterSignal name => exact ih _ (FlowHub.keys_nodup_unregisterSignal name st hkeys)

/-- C15. In every registry state (a `std::map`, so its keys are unique), `allSignalNames()`
returns exactly the registered names, each once; its length is `count()`; and `count()` is
the number of registered names: every duplicate-free list of exactly the registered names
has that length. -/
theorem allSignalNames_lists_registered_names_once (st : Process Cb Ty)
    (hkeys : (st.map_.map Prod.fst).Nodup) :
    (∀ name, name ∈ FlowHub.allSignalNames st ↔ (FlowHub.find name st.map_).isSome = true)
    ∧ (∀ name, (FlowHub.find name st.map_).isSome = true →
        (FlowHub.allSignalNames st).count name = 1)
    ∧ (∀ name, FlowHub.find name st.map_ = none →
        (FlowHub.allSignalNames st).count name = 0)
    ∧ (FlowHub.allSignalNames st).length = FlowHub.count st
    ∧ (∀ names : List String, names.Nodup →
        (∀ name, name ∈ names ↔ (FlowHub.find name st.map_).isSome = true) →
        FlowHub.count st = names.length) := by
  have hmem : ∀ name, name ∈ FlowHub.allSignalNames st
      ↔ (FlowHub.find name st.map_).isSome = true :=
    fun name => (FlowHub.find_isSome_iff name st.map_).symm
  refine ⟨hmem, fun name hn => ?_, fun name hn => ?_, ?_, fun names hnd hnames => ?_⟩
  · exact List.count_eq_one_of_mem hkeys ((hmem name).2 hn)
  · exact List.count_eq_zero_of_not_mem ((FlowHub.find_eq_none_iff name st.map_).1 hn)
  · simp [FlowHub.allSignalNames, FlowHub.count]
  · have hperm : names.Perm (FlowHub.allSignalNames st) :=
      (List.perm_ext_iff_of_nodup hnd hkeys).2 (fun a => (hnames a).trans (hmem a).symm)
    rw [hperm.length_eq]
    simp [FlowHub.allSignalNames, FlowHub.count]

/-- Witness for C15: the process reached from the empty one by `getOrCreate("b")`,
`getOrCreate("a")`, `getOrCreate("b")`, `unregisterSignal("c")`. -/
theorem allSignalNames_lists_registered_names_once_witness :
    (processAB.map_.map Prod.fst).Nodup
    ∧ FlowHub.allSignalNames processAB = ["a", "b"]
    ∧ FlowHub.count processAB = 2
    ∧ (FlowHub.allSignalNames processAB).length = FlowHub.count processAB :=
  ⟨by decide, by decide, by decide,
    (allSignalNames_lists_registered_names_once processAB (by decide)).2.2.2.1⟩

end Enumeration

/-! ## A fault raised by a callback -/

section FaultIsolation
variable {Cb Ty : Type} {Val : Ty → Type} {W : Type} [DecidableEq Ty]

end FaultIsolation

/-! ## Callbacks that connect and disconnect during an emission -/

section Reentrancy
variable {Cb Ty : Type} {Val : Ty → Type} {W : Type} [DecidableEq Ty]

theorem FlowSlotAny.invoke_no_fault (call : Cb → StdAny Ty Val → W → Outcome W)
    (hcall : ∀ c a w, (call c a w).fault = none) (s : FlowSlotAny Cb Ty)
    (a : StdAny Ty Val) (w : W) : (s.invoke call a w).fault = none := by
  cases s with
  | any c => exact hcall c a w
  | typed T c =>
    simp only [FlowSlotAny.invoke]
    split
    · exact hcall c a w
    · rfl

theorem deliver_no_fault (call : Cb → StdAny Ty Val → W → Outcome W)
    (hcall : ∀ c a w, (call c a w).fault = none) (data : StdAny Ty Val)
    (l : List (FlowSlotAny Cb Ty)) (w : W) : (deliver call data l w).fault = none := by
  induction l generalizing w with
  | nil => rfl
  | cons s tl ih =>
    unfold deliver
    rw [FlowSlotAny.invoke_no_fault call hcall s data w]
    exact ih _

/-- C18. Let the callables be state transformers of a world that contains the dispatcher
(`self` reads the dispatcher off the world), so that a callable can connect to and
disconnect from the dispatcher it is called by.  An emission that begins in world `w`
invokes exactly the callbacks of the subscriptions in the map of `self w`, once each, in
snapshot order, whatever the callables do to the map meanwhile: a callback that is not in
that map is not invoked, also when the map after the emission holds it, and a callback that
is in that map is invoked, also when the map after the emission no longer holds it.  The
next emission, which begins in the world the first one left, invokes exactly the callbacks
of the map as it is then. -/
theorem emission_invokes_snapshot_taken_at_start
    (call : Cb → StdAny Ty Val → W → Outcome W) (self : W → FlowSignal Cb Ty)
    (hstate : ∀ c a w, (call c a w).fault = none) (data : StdAny Ty Val) (w : W) :
    ((self w).emit_any call data w).invoked = (self w).slots_.map (fun kv => (kv.2, data))
    ∧ ((self w).emit_any call data w).fault = none
    ∧ (∀ s, s ∉ (self w).snapshot → (s, data) ∉ ((self w).emit_any call data w).invoked)
    ∧ (∀ kv ∈ (self w).slots_, (kv.2, data) ∈ ((self w).emit_any call data w).invoked)
    ∧ ((self ((self w).emit_any call data w).world).emit_any call data
          ((self w).emit_any call data w).world).invoked
        = (self ((self w).emit_any call data w).world).slots_.map (fun kv => (kv.2, data)) := by
  have hall : ∀ (sig : FlowSignal Cb Ty) (w1 : W),
      (sig.emit_any call data w1).invoked = sig.slots_.map (fun kv => (kv.2, data)) := by
    intro sig w1
    have h := deliver_invoked_all call data sig.snapshot w1
      (deliver_no_fault call hstate data sig.snapshot w1)
    simpa [FlowSignal.emit_any, FlowSignal.snapshot] using h
  refine ⟨hall _ _, deliver_no_fault call hstate data _ w, fun s hs hmem => ?_,
    fun kv hkv => ?_, hall _ _⟩
  · rw [hall] at hmem
    obtain ⟨kv, hkv, heq⟩ := List.mem_map.1 hmem
    have : kv.2 = s := (Prod.mk.inj heq).1
    exact hs (this ▸ List.mem_map_of_mem Prod.snd hkv)
  · rw [hall]
    exact List.mem_map.2 ⟨kv, hkv, rfl⟩

/-- Witness for C18: the snapshot is `releaser`, `victim`, `connector`.  During the emission
`releaser` releases the handle of `victim` and `connector` connects `late`.  The emission
invokes `releaser`, `victim` and `connector`, not `late`; afterwards the map holds
`releaser`, `connector` and `late`, and these are what the next emission invokes. -/
theorem emission_invokes_snapshot_taken_at_start_witness :
    (∀ c a w, (Reentrant.call c a w).fault = none)
    ∧ (reentrantSignal.emit_any Reentrant.call .empty reentrantSignal).invoked
        = [(.any .releaser, .empty), (.any .victim, .empty), (.any .connector, .empty)]
    ∧ (reentrantSignal.emit_any Reentrant.call .empty reentrantSignal).world.slots_
        = [(1, .any .releaser), (3, .any .connector), (4, .any .late)]
    ∧ ((reentrantSignal.emit_any Reentrant.call .empty reentrantSignal).world.emit_any
          Reentrant.call .empty
          (reentrantSignal.emit_any Reentrant.call .empty reentrantSignal).world).invoked
        = [(.any .releaser, .empty), (.any .connector, .empty), (.any .late, .empty)] :=
  ⟨fun c _ _ => by cases c <;> rfl,
    (emission_invokes_snapshot_taken_at_start Reentrant.call id
      (fun c _ _ => by cases c <;> rfl) .empty reentrantSignal).1,
    rfl,
    (emission_invokes_snapshot_taken_at_start Reentrant.call id
      (fun c _ _ => by cases c <;> rfl) .empty reentrantSignal).2.2.2.2⟩

end Reentrancy

/-! ## The subscriber map and the active handles -/

section Sessions
variable {Cb Ty : Type}

theorem mem_ids_emplace {α : Type} (id k : ConnectionId) (slot : α)
    (m : List (ConnectionId × α)) :
    k ∈ (emplace id slot m).map Prod.fst ↔ k ∈ m.map Prod.fst ∨ k = id := by
  unfold emplace
  split
  · rename_i hid
    constructor
    · exact fun h => Or.inl h
    · rintro (h | h)
      · exact h
      · exact h ▸ hid
  · simp

theorem mem_ids_erase {α : Type} (id k : ConnectionId) (m : List (ConnectionId × α)) :
    k ∈ (erase id m).map Prod.fst ↔ k ∈ m.map Prod.fst ∧ k ≠ id := by
  constructor
  · intro h
    obtain ⟨kv, hkv, hk⟩ := List.mem_map.1 h
    have := (mem_erase id m kv).1 hkv
    exact ⟨hk ▸ List.mem_map_of_mem Prod.fst this.1, hk ▸ this.2⟩
  · rintro ⟨h, hne⟩
    obtain ⟨kv, hkv, hk⟩ := List.mem_map.1 h
    exact List.mem_map.2 ⟨kv, (mem_erase id m kv).2 ⟨hkv, hk ▸ hne⟩, hk⟩

theorem Session.sig_of_heap (p : Addr) (s : Session Cb Ty) (cell : SharedCell Cb Ty)
    (h : s.heap p = some cell) : s.sig p = cell.obj := by
  simp [Session.sig, h]

theorem Session.holds_of_bound (p : Addr) (s : Session Cb Ty) (i : Nat) (k : ConnectionId)
    (hinv : Session.Inv p s) (h : s.holds p i k) : 1 ≤ k ∧ k < (s.sig p).next_id_ := by
  have hh : s.handles i = { owner_ := some p, id_ := k } := h.1
  rcases hinv.bound i with hb | ⟨k1, hb, h1, h2⟩
  · rw [hb] at hh; cases hh
  · rw [hb] at hh
    have hk : k1 = k := (Connection.mk.inj hh).2
    exact hk ▸ ⟨h1, h2⟩

/-- The fresh program satisfies the invariant. -/
theorem Session.inv_start (p : Addr) : Session.Inv p (Session.start p : Session Cb Ty) := by
  refine ⟨⟨⟨1, {}⟩, by simp [Session.start]⟩, by simp [Session.sig, Session.start],
    fun i => Or.inl rfl, fun i _ => rfl, ?_, ?_⟩
  · intro i j k hi _
    cases hi.1
  · intro k hk
    simp [Session.sig, Session.start, FlowSignal.ids] at hk

theorem Session.step_connect (p : Addr) (s : Session Cb Ty) (slot : FlowSlotAny Cb Ty)
    (hinv : Session.Inv p s) (hb : (s.sig p).next_id_ + 1 < UINT64_RANGE) :
    ∃ s1, Session.step p (.connect_any slot) s = .ok s1 ∧ Session.Inv p s1
      ∧ (s1.sig p).next_id_ = (s.sig p).next_id_ + 1
      ∧ (Session.handlesInMap p s → Session.handlesInMap p s1) := by
  obtain ⟨cell, hcell⟩ := hinv.live
  have hsig := Session.sig_of_heap p s cell hcell
  rw [hsig] at hb
  have hstep : Session.step p (.connect_any slot) s
      = .ok { heap := Function.update s.heap p
                (some { cell with obj := (cell.obj.connect_any slot).2 }),
              handles := Function.update s.handles s.made
                { owner_ := some p, id_ := cell.obj.next_id_ },
              made := s.made + 1 } := by
    simp [Session.step, Heap.connect_any, hcell, FlowSignal.connect_any]
  have hnext : (cell.obj.connect_any slot).2.next_id_ = cell.obj.next_id_ + 1 := by
    simp [FlowSignal.connect_any, Nat.mod_eq_of_lt hb]
  have hids : ∀ k, k ∈ (cell.obj.connect_any slot).2.ids
      ↔ k ∈ cell.obj.ids ∨ k = cell.obj.next_id_ :=
    fun k => mem_ids_emplace cell.obj.next_id_ k slot cell.obj.slots_
  have hpos : 1 ≤ cell.obj.next_id_ := hsig ▸ hinv.pos
  have hmade : s.handles s.made = { owner_ := none, id_ := 0 } := hinv.unmade _ (Nat.le_refl _)
  refine ⟨_, hstep, ?_, ?_, ?_⟩
  · have hsig1 : ∀ (h : Handles) (m : Nat), Session.sig p
        ({ heap := Function.update s.heap p
              (some { cell with obj := (cell.obj.connect_any slot).2 }),
           handles := h, made := m } : Session Cb Ty) = (cell.obj.connect_any slot).2 :=
      fun h m => by simp [Session.sig]
    refine ⟨⟨_, Function.update_same _ _ _⟩, ?_, ?_, ?_, ?_, ?_⟩
    · rw [hsig1, hnext]; exact Nat.le_add_left _ _
    · intro i
      rw [hsig1, hnext]
      by_cases hi : i = s.made
      · right
        exact ⟨cell.obj.next_id_, by subst hi; exact Function.update_same _ _ _, hpos,
          Nat.lt_succ_self _⟩
      · simp only [Function.update_noteq hi]
        rcases hinv.bound i with h0 | ⟨k, hk, h1, h2⟩
        · exact Or.inl h0
        · exact Or.inr ⟨k, hk, h1, Nat.lt_succ_of_lt (hsig ▸ h2)⟩
    · intro i hi
      have hne : i ≠ s.made := by simp only at hi; omega
      simp only [Function.update_noteq hne]
      exact hinv.unmade i (by simp only at hi; omega)
    · intro i j k hi hj
      simp only [Session.holds] at hi hj
      by_cases hi1 : i = s.made <;> by_cases hj1 : j = s.made
      · rw [hi1, hj1]
      · exfalso
        rw [hi1, Function.update_same] at hi
        rw [Function.update_noteq hj1] at hj
        have hk : cell.obj.next_id_ = k := (Connection.mk.inj hi.1).2
        have := (Session.holds_of_bound p s j k hinv ⟨hj.1, hj.2⟩).2
        rw [hsig, hk] at this
        exact Nat.lt_irrefl _ this
      · exfalso
        rw [hj1, Function.update_same] at hj
        rw [Function.update_noteq hi1] at hi
        have hk : cell.obj.next_id_ = k := (Connection.mk.inj hj.1).2
        have := (Session.holds_of_bound p s i k hinv ⟨hi.1, hi.2⟩).2
        rw [hsig, hk] at this
        exact Nat.lt_irrefl _ this
      · rw [Function.update_noteq hi1] at hi
        rw [Function.update_noteq hj1] at hj
        exact hinv.one i j k ⟨hi.1, hi.2⟩ ⟨hj.1, hj.2⟩
    · intro k hk
      rw [hsig1] at hk
      rcases (hids k).1 hk with hk | hk
      · obtain ⟨i, hi⟩ := hinv.sub k (hsig ▸ hk)
        have hne : i ≠ s.made := by
          intro h
          have := hi.1
          rw [h, hmade] at this
          cases this
        exact ⟨i, by simp only [Session.holds, Function.update_noteq hne]; exact hi⟩
      · refine ⟨s.made, by simp [Session.holds, hk], ?_⟩
        rw [hk]; exact Nat.one_le_iff_ne_zero.1 hpos
  · simp only [Session.sig, Function.update_same, hcell, hnext]
  · intro hfull i k hik
    have hsig1 : Session.sig p
        ({ heap := Function.update s.heap p
              (some { cell with obj := (cell.obj.connect_any slot).2 }),
           handles := Function.update s.handles s.made
              { owner_ := some p, id_ := cell.obj.next_id_ },
           made := s.made + 1 } : Session Cb Ty) = (cell.obj.connect_any slot).2 := by
      simp [Session.sig]
    rw [hsig1]
    simp only [Session.holds] at hik
    by_cases hi : i = s.made
    · rw [hi, Function.update_same] at hik
      have hk : cell.obj.next_id_ = k := (Connection.mk.inj hik.1).2
      exact (hids k).2 (Or.inr hk.symm)
    · rw [Function.update_noteq hi] at hik
      exact (hids k).2 (Or.inl (hsig ▸ hfull i k ⟨hik.1, hik.2⟩))

end Sessions

section Sessions2
variable {Cb Ty : Type}

/-- Taking over the handle `j` into an inert handle object `i` keeps the invariant. -/
theorem Session.inv_move (p : Addr) (s : Session Cb Ty) (i j made1 : Nat)
    (hinv : Session.Inv p s) (hi : s.handles i = { owner_ := none, id_ := 0 })
    (hij : i ≠ j) (hmade : s.made ≤ made1) (hi1 : i < made1) :
    Session.Inv p (Session.mk s.heap (Function.update (Function.update s.handles i (s.handles j)) j
          { owner_ := none, id_ := 0 }) made1)
    ∧ (Session.handlesInMap p s →
        Session.handlesInMap p (Session.mk s.heap (Function.update (Function.update s.handles i (s.handles j)) j
          { owner_ := none, id_ := 0 }) made1)) := by
  have hget : ∀ a, a ≠ i → a ≠ j →
      Function.update (Function.update s.handles i (s.handles j)) j
        ({ owner_ := none, id_ := 0 } : Connection) a = s.handles a :=
    fun a hai haj => by rw [Function.update_noteq haj, Function.update_noteq hai]
  have hgetj : Function.update (Function.update s.handles i (s.handles j)) j
      ({ owner_ := none, id_ := 0 } : Connection) j = { owner_ := none, id_ := 0 } :=
    Function.update_same _ _ _
  have hgeti : Function.update (Function.update s.handles i (s.handles j)) j
      ({ owner_ := none, id_ := 0 } : Connection) i = s.handles j := by
    rw [Function.update_noteq hij, Function.update_same]
  -- what an active handle of the new table was in the old one
  have hold : ∀ a k, Function.update (Function.update s.handles i (s.handles j)) j
      ({ owner_ := none, id_ := 0 } : Connection) a = { owner_ := some p, id_ := k } →
      (a = i ∧ s.handles j = { owner_ := some p, id_ := k })
      ∨ (a ≠ i ∧ a ≠ j ∧ s.handles a = { owner_ := some p, id_ := k }) := by
    intro a k ha
    by_cases haj : a = j
    · rw [haj, hgetj] at ha; cases ha
    · by_cases hai : a = i
      · rw [hai, hgeti] at ha; exact Or.inl ⟨hai, ha⟩
      · rw [hget a hai haj] at ha; exact Or.inr ⟨hai, haj, ha⟩
  refine ⟨⟨hinv.live, hinv.pos, fun a => ?_, fun a ha => ?_, fun a b k ha hb => ?_,
    fun k hk => ?_⟩, fun hfull a k ha => ?_⟩
  · show _ ∨ ∃ k, _ ∧ 1 ≤ k ∧ k < (s.sig p).next_id_
    dsimp only
    by_cases haj : a = j
    · left; rw [haj]; exact hgetj
    · by_cases hai : a = i
      · rw [hai, hgeti]; exact hinv.bound j
      · rw [hget a hai haj]; exact hinv.bound a
  · have ha1 : made1 ≤ a := ha
    have hai : a ≠ i := by omega
    dsimp only
    by_cases haj : a = j
    · rw [haj]; exact hgetj
    · rw [hget a hai haj]; exact hinv.unmade a (by omega)
  · rcases hold a k ha.1 with ⟨hai, haj⟩ | ⟨hai, haj, hah⟩ <;>
      rcases hold b k hb.1 with ⟨hbi, hbj⟩ | ⟨hbi, hbj, hbh⟩
    · rw [hai, hbi]
    · exact absurd (hinv.one j b k ⟨haj, ha.2⟩ ⟨hbh, hb.2⟩).symm hbj
    · exact absurd (hinv.one j a k ⟨hbj, hb.2⟩ ⟨hah, ha.2⟩).symm haj
    · exact hinv.one a b k ⟨hah, ha.2⟩ ⟨hbh, hb.2⟩
  · obtain ⟨l, hl⟩ := hinv.sub k hk
    have hli : l ≠ i := by
      intro h
      have := hl.1
      rw [h, hi] at this
      cases this
    by_cases hlj : l = j
    · have hj : s.handles j = { owner_ := some p, id_ := k } := by rw [← hlj]; exact hl.1
      exact ⟨i, hgeti.trans hj, hl.2⟩
    · exact ⟨l, (hget l hli hlj).trans hl.1, hl.2⟩
  · show k ∈ (s.sig p).ids
    rcases hold a k ha.1 with ⟨_, haj⟩ | ⟨_, _, hah⟩
    · exact hfull j k ⟨haj, ha.2⟩
    · exact hfull a k ⟨hah, ha.2⟩

/-- Releasing handle object `i` returns and keeps the invariant. -/
theorem Session.inv_reset (p : Addr) (s : Session Cb Ty) (i : Nat) (hinv : Session.Inv p s) :
    ∃ h1, (s.handles i).reset s.heap = .ok ({ owner_ := none, id_ := 0 }, h1)
      ∧ Session.Inv p (Session.mk h1 (Function.update s.handles i { owner_ := none, id_ := 0 }) s.made)
      ∧ (Session.sig p (Session.mk h1 (Function.update s.handles i { owner_ := none, id_ := 0 }) s.made)).next_id_ = (s.sig p).next_id_
      ∧ (Session.handlesInMap p s →
          Session.handlesInMap p (Session.mk h1 (Function.update s.handles i { owner_ := none, id_ := 0 }) s.made)) := by
  rcases hinv.bound i with h0 | ⟨k, hk, hk1, hk2⟩
  · have hsame : Function.update s.handles i ({ owner_ := none, id_ := 0 } : Connection)
        = s.handles := by
      rw [← h0]; exact Function.update_eq_self i s.handles
    refine ⟨s.heap, ?_, ?_, ?_, ?_⟩
    · rw [h0]; rfl
    · rw [hsame]; exact hinv
    · rfl
    · rw [hsame]; exact id
  · obtain ⟨cell, hcell⟩ := hinv.live
    have hsig := Session.sig_of_heap p s cell hcell
    have hk0 : k ≠ 0 := Nat.one_le_iff_ne_zero.1 hk1
    have hreset : (s.handles i).reset s.heap
        = .ok ({ owner_ := none, id_ := 0 },
            Function.update s.heap p (some { cell with obj := cell.obj.disconnect k })) := by
      rw [hk]
      exact Connection.reset_of_active _ s.heap p cell rfl hk0 hcell
    have hsig1 : Session.sig p (Session.mk (Function.update s.heap p (some { cell with obj := cell.obj.disconnect k }))
        (Function.update s.handles i { owner_ := none, id_ := 0 }) s.made) = cell.obj.disconnect k := by
      simp [Session.sig]
    have hold : ∀ a x, Function.update s.handles i
        ({ owner_ := none, id_ := 0 } : Connection) a = { owner_ := some p, id_ := x } →
        a ≠ i ∧ s.handles a = { owner_ := some p, id_ := x } := by
      intro a x ha
      by_cases hai : a = i
      · rw [hai, Function.update_same] at ha; cases ha
      · rw [Function.update_noteq hai] at ha; exact ⟨hai, ha⟩
    refine ⟨_, hreset, ⟨⟨_, Function.update_same _ _ _⟩, ?_, fun a => ?_, fun a ha => ?_,
      fun a b x ha hb => ?_, fun x hx => ?_⟩, ?_, fun hfull a x ha => ?_⟩
    · rw [hsig1]; exact hsig ▸ hinv.pos
    · rw [hsig1]
      show _ ∨ ∃ x, _ ∧ 1 ≤ x ∧ x < cell.obj.next_id_
      dsimp only
      by_cases hai : a = i
      · left; rw [hai]; exact Function.update_same _ _ _
      · rw [Function.update_noteq hai, ← hsig]; exact hinv.bound a
    · have ha1 : s.made ≤ a := ha
      dsimp only
      by_cases hai : a = i
      · rw [hai]; exact Function.update_same _ _ _
      · rw [Function.update_noteq hai]; exact hinv.unmade a ha1
    · exact hinv.one a b x ⟨(hold a x ha.1).2, ha.2⟩ ⟨(hold b x hb.1).2, hb.2⟩
    · rw [hsig1] at hx
      have hx1 := (mem_ids_erase k x cell.obj.slots_).1 hx
      obtain ⟨l, hl⟩ := hinv.sub x (hsig ▸ hx1.1)
      have hli : l ≠ i := by
        intro h
        have := hl.1
        rw [h, hk] at this
        exact hx1.2 (Connection.mk.inj this).2.symm
      exact ⟨l, (Function.update_noteq hli _ _).trans hl.1, hl.2⟩
    · rw [hsig1, hsig]; rfl
    · rw [hsig1]
      have hah := hold a x ha.1
      have hx : x ∈ cell.obj.ids := hsig ▸ hfull a x ⟨hah.2, ha.2⟩
      have hxk : x ≠ k := by
        intro h
        exact hah.1 (hinv.one a i x ⟨hah.2, ha.2⟩ ⟨h ▸ hk, ha.2⟩)
      exact (mem_ids_erase k x cell.obj.slots_).2 ⟨hx, hxk⟩

end Sessions2

section Sessions3
variable {Cb Ty : Type}

/-- A call that only takes entries out of the map keeps the invariant. -/
theorem Session.inv_shrink (p : Addr) (s : Session Cb Ty) (cell : SharedCell Cb Ty)
    (obj1 : FlowSignal Cb Ty) (hinv : Session.Inv p s) (hcell : s.heap p = some cell)
    (hnext : obj1.next_id_ = cell.obj.next_id_) (hsub : ∀ k, k ∈ obj1.ids → k ∈ cell.obj.ids) :
    Session.Inv p (Session.mk (Function.update s.heap p (some { cell with obj := obj1 }))
      s.handles s.made)
    ∧ (Session.sig p (Session.mk (Function.update s.heap p (some { cell with obj := obj1 }))
      s.handles s.made)).next_id_ = (s.sig p).next_id_ := by
  have hsig := Session.sig_of_heap p s cell hcell
  have hsig1 : Session.sig p (Session.mk (Function.update s.heap p
      (some { cell with obj := obj1 })) s.handles s.made) = obj1 := by
    simp [Session.sig]
  refine ⟨⟨⟨_, Function.update_same _ _ _⟩, ?_, fun a => ?_, hinv.unmade, ?_, fun k hk => ?_⟩,
    ?_⟩
  · rw [hsig1, hnext, ← hsig]; exact hinv.pos
  · rw [hsig1, hnext, ← hsig]; exact hinv.bound a
  · exact fun a b k ha hb => hinv.one a b k ha hb
  · rw [hsig1] at hk
    exact hinv.sub k (hsig ▸ hsub k hk)
  · rw [hsig1, hnext, hsig]

theorem Session.step_disconnect (p : Addr) (s : Session Cb Ty) (id : ConnectionId)
    (hinv : Session.Inv p s) :
    ∃ s1, Session.step p (.disconnect id) s = .ok s1 ∧ Session.Inv p s1
      ∧ (s1.sig p).next_id_ = (s.sig p).next_id_ := by
  obtain ⟨cell, hcell⟩ := hinv.live
  have h := Session.inv_shrink p s cell (cell.obj.disconnect id) hinv hcell rfl
    (fun k hk => ((mem_ids_erase id k cell.obj.slots_).1 hk).1)
  exact ⟨_, by simp only [Session.step, Heap.disconnect, hcell], h.1, h.2⟩

theorem Session.step_disconnectAll (p : Addr) (s : Session Cb Ty) (hinv : Session.Inv p s) :
    ∃ s1, Session.step p .disconnectAll s = .ok s1 ∧ Session.Inv p s1
      ∧ (s1.sig p).next_id_ = (s.sig p).next_id_ := by
  obtain ⟨cell, hcell⟩ := hinv.live
  have h := Session.inv_shrink p s cell cell.obj.disconnectAll hinv hcell rfl
    (fun k hk => by simp [FlowSignal.disconnectAll, FlowSignal.ids] at hk)
  exact ⟨_, by simp only [Session.step, Heap.disconnectAll, hcell], h.1, h.2⟩

theorem Session.step_release (p : Addr) (s : Session Cb Ty) (i : Nat)
    (hinv : Session.Inv p s) :
    ∃ s1, Session.step p (.release i) s = .ok s1 ∧ Session.Inv p s1
      ∧ (s1.sig p).next_id_ = (s.sig p).next_id_
      ∧ (Session.handlesInMap p s → Session.handlesInMap p s1) := by
  obtain ⟨h1, hreset, hinv1, hnext, hfull⟩ := Session.inv_reset p s i hinv
  exact ⟨_, by simp only [Session.step, hreset], hinv1, hnext, hfull⟩

theorem Session.step_moveAssign (p : Addr) (s : Session Cb Ty) (i j : Nat)
    (hinv : Session.Inv p s) :
    ∃ s1, Session.step p (.moveAssign i j) s = .ok s1 ∧ Session.Inv p s1
      ∧ (s1.sig p).next_id_ = (s.sig p).next_id_
      ∧ (Session.handlesInMap p s → Session.handlesInMap p s1) := by
  by_cases hidx : i < s.made ∧ j < s.made
  · by_cases hij : i = j
    · refine ⟨s, ?_, hinv, rfl, id⟩
      simp [Session.step, hidx, Handles.moveAssign, hij]
    · obtain ⟨h1, hreset, hinv1, hnext, hfull⟩ := Session.inv_reset p s i hinv
      have hmove := Session.inv_move p
        (Session.mk h1 (Function.update s.handles i { owner_ := none, id_ := 0 }) s.made)
        i j s.made hinv1 (Function.update_same _ _ _) hij (Nat.le_refl _) hidx.1
      have htable : Function.update (Function.update
            (Function.update s.handles i ({ owner_ := none, id_ := 0 } : Connection)) i
            (Function.update s.handles i ({ owner_ := none, id_ := 0 } : Connection) j)) j
            ({ owner_ := none, id_ := 0 } : Connection)
          = Function.update (Function.update s.handles i
              { owner_ := (s.handles j).owner_, id_ := (s.handles j).id_ }) j
              { owner_ := none, id_ := 0 } := by
        rw [Function.update_idem, Function.update_noteq (fun h => hij h.symm)]
      dsimp only at hmove
      rw [htable] at hmove
      refine ⟨_, ?_, hmove.1, hnext, fun hf => hmove.2 (hfull hf)⟩
      simp only [Session.step, hidx, and_self, if_true, Handles.moveAssign, hij, if_false,
        Connection.moveAssign, hreset]
  · exact ⟨s, by simp [Session.step, hidx], hinv, rfl, id⟩

theorem Session.step_moveConstruct (p : Addr) (s : Session Cb Ty) (j : Nat)
    (hinv : Session.Inv p s) :
    ∃ s1, Session.step p (.moveConstruct j) s = .ok s1 ∧ Session.Inv p s1
      ∧ (s1.sig p).next_id_ = (s.sig p).next_id_
      ∧ (Session.handlesInMap p s → Session.handlesInMap p s1) := by
  have hmade : s.handles s.made = { owner_ := none, id_ := 0 } :=
    hinv.unmade _ (Nat.le_refl _)
  have hstep : Session.step p (.moveConstruct j) s
      = .ok (Session.mk s.heap (Function.update (Function.update s.handles s.made
          { owner_ := (s.handles j).owner_, id_ := (s.handles j).id_ }) j
          { owner_ := none, id_ := 0 }) (s.made + 1)) := by
    simp only [Session.step, Connection.moveConstruct, Connection.moveAssign]
    rfl
  by_cases hj : s.made = j
  · have htable : Function.update (Function.update s.handles s.made
          ({ owner_ := (s.handles j).owner_, id_ := (s.handles j).id_ } : Connection)) j
          ({ owner_ := none, id_ := 0 } : Connection) = s.handles := by
      rw [← hj, Function.update_idem, ← hmade]
      exact Function.update_eq_self _ _
    rw [htable] at hstep
    refine ⟨_, hstep, ⟨hinv.live, hinv.pos, hinv.bound,
      fun a ha => hinv.unmade a (Nat.le_of_succ_le ha), hinv.one, hinv.sub⟩, rfl, id⟩
  · have hmove := Session.inv_move p s s.made j (s.made + 1) hinv hmade hj
      (Nat.le_succ _) (Nat.lt_succ_self _)
    exact ⟨_, hstep, hmove.1, rfl, hmove.2⟩

end Sessions3

section Sessions4
variable {Cb Ty : Type}

/-- Every sequence of calls returns, and keeps the invariant, as long as the counter does
not wrap. -/
theorem Session.run_inv (p : Addr) (calls : List (SessionCall Cb Ty)) (s : Session Cb Ty)
    (hinv : Session.Inv p s)
    (hb : (s.sig p).next_id_ + sessionConnects calls < UINT64_RANGE) :
    ∃ s1, Session.run p calls s = .ok s1 ∧ Session.Inv p s1
      ∧ (handlesOnly calls = true → Session.handlesInMap p s → Session.handlesInMap p s1) := by
  induction calls generalizing s with
  | nil => exact ⟨s, rfl, hinv, fun _ h => h⟩
  | cons c cs ih =>
    have key : ∀ s1, Session.step p c s = .ok s1 → Session.Inv p s1 →
        (s1.sig p).next_id_ + sessionConnects cs < UINT64_RANGE →
        (handlesOnly (c :: cs) = true → handlesOnly cs = true
          ∧ (Session.handlesInMap p s → Session.handlesInMap p s1)) →
        ∃ s2, Session.run p (c :: cs) s = .ok s2 ∧ Session.Inv p s2
          ∧ (handlesOnly (c :: cs) = true → Session.handlesInMap p s →
              Session.handlesInMap p s2) := by
      intro s1 hstep hinv1 hb1 hfull
      obtain ⟨s2, hrun, hinv2, hfull2⟩ := ih s1 hinv1 hb1
      refine ⟨s2, by simp only [Session.run, hstep, hrun], hinv2, fun ho hf => ?_⟩
      exact hfull2 (hfull ho).1 ((hfull ho).2 hf)
    cases c with
    | connect_any slot =>
      simp only [sessionConnects, ConnectionId] at hb
      obtain ⟨s1, hstep, hinv1, hnext, hfull⟩ := Session.step_connect p s slot hinv
        (by simp only [ConnectionId]; omega)
      exact key s1 hstep hinv1 (by rw [hnext]; simp only [ConnectionId]; omega)
        (fun ho => ⟨ho, hfull⟩)
    | disconnect id =>
      obtain ⟨s1, hstep, hinv1, hnext⟩ := Session.step_disconnect p s id hinv
      exact key s1 hstep hinv1 (by rw [hnext]; exact hb) (fun ho => by simp [handlesOnly] at ho)
    | disconnectAll =>
      obtain ⟨s1, hstep, hinv1, hnext⟩ := Session.step_disconnectAll p s hinv
      exact key s1 hstep hinv1 (by rw [hnext]; exact hb) (fun ho => by simp [handlesOnly] at ho)
    | release i =>
      obtain ⟨s1, hstep, hinv1, hnext, hfull⟩ := Session.step_release p s i hinv
      exact key s1 hstep hinv1 (by rw [hnext]; exact hb) (fun ho => ⟨ho, hfull⟩)
    | moveAssign i j =>
      obtain ⟨s1, hstep, hinv1, hnext, hfull⟩ := Session.step_moveAssign p s i j hinv
      exact key s1 hstep hinv1 (by rw [hnext]; exact hb) (fun ho => ⟨ho, hfull⟩)
    | moveConstruct j =>
      obtain ⟨s1, hstep, hinv1, hnext, hfull⟩ := Session.step_moveConstruct p s j hinv
      exact key s1 hstep hinv1 (by rw [hnext]; exact hb) (fun ho => ⟨ho, hfull⟩)

/-- C19, as stated, fails. After `connect_any(A)` and `disconnectAll()` on a fresh
dispatcher the subscriber map is empty, while the handle that `connect_any` returned is
still active and holds identifier 1. -/
theorem disconnectAll_leaves_handle_active :
    ∃ s, Session.run 1 connectThenDisconnectAll (Session.start 1) = .ok s
      ∧ (s.sig 1).ids = []
      ∧ s.handles 0 = { owner_ := some 1, id_ := 1 }
      ∧ (s.handles 0).active = true
      ∧ ¬ Session.mapMatchesHandles 1 s := by
  refine ⟨_, rfl, rfl, rfl, rfl, fun h => ?_⟩
  have h1 := (h 1).2 ⟨0, rfl, by decide⟩
  revert h1
  decide

/-- C19, amended. In every state reached from a fresh dispatcher through `connect_any`,
`disconnect`, `disconnectAll`, handle release and handle transfer, with fewer than
`2 ^ 64 - 1` calls of `connect_any`: every identifier in the subscriber map is held by an
active handle bound to the dispatcher; no two handles hold the same identifier; and if
neither `disconnect` nor `disconnectAll` was called on the dispatcher itself, the
identifiers in the map are exactly those held by the active handles. -/
theorem map_ids_are_held_by_active_handles (p : Addr) (calls : List (SessionCall Cb Ty))
    (hb : sessionConnects calls < UINT64_RANGE - 1) :
    ∃ s, Session.run p calls (Session.start p) = .ok s
      ∧ (∀ k, k ∈ (s.sig p).ids → ∃ i, s.holds p i k)
      ∧ (∀ i j k, s.holds p i k → s.holds p j k → i = j)
      ∧ (handlesOnly calls = true → Session.mapMatchesHandles p s) := by
  have hstart : ((Session.start p : Session Cb Ty).sig p).next_id_ = 1 := by
    simp [Session.sig, Session.start]
  obtain ⟨s, hrun, hinv, hfull⟩ := Session.run_inv p calls (Session.start p)
    (Session.inv_start p)
    (by rw [hstart]; show (1 : Nat) + sessionConnects calls < UINT64_RANGE; omega)
  refine ⟨s, hrun, hinv.sub, hinv.one, fun ho k => ⟨hinv.sub k, fun ⟨i, hi⟩ => ?_⟩⟩
  exact hfull ho (fun i k hik => by cases hik.1) i k hi

/-- Witness for C19, amended: two subscriptions, a move construction, a move assignment and
a release; the map holds identifier 2, which handle object 0 holds. -/
theorem map_ids_are_held_by_active_handles_witness :
    sessionConnects connectMoveRelease < UINT64_RANGE - 1
    ∧ handlesOnly connectMoveRelease = true
    ∧ ∃ s, Session.run 1 connectMoveRelease (Session.start 1) = .ok s
      ∧ Session.mapMatchesHandles 1 s := by
  refine ⟨by decide, rfl, ?_⟩
  obtain ⟨s, hrun, _, _, hmatch⟩ :=
    map_ids_are_held_by_active_handles 1 connectMoveRelease (by decide)
  exact ⟨s, hrun, hmatch rfl⟩

end Sessions4

/-! ## The number of registered names -/

section SignalCount
variable {Cb Ty : Type}

/-- After `getOrCreate(name)`, whatever is then done to the dispatcher it returned, dropping
the returned reference leaves a process that satisfies the invariant. -/
theorem Process.wf_touch (name : String) (st : Process Cb Ty) (hwf : Process.WF st)
    (obj1 : FlowSignal Cb Ty) :
    ∃ cell1, (FlowHub.getOrCreate name st).2.heap (FlowHub.getOrCreate name st).1 = some cell1
      ∧ Process.WF (Process.mk (FlowHub.getOrCreate name st).2.map_
          (Heap.release (FlowHub.getOrCreate name st).1
            (Function.update (FlowHub.getOrCreate name st).2.heap
              (FlowHub.getOrCreate name st).1 (some { cell1 with obj := obj1 })))
          (FlowHub.getOrCreate name st).2.brk) := by
  cases hf : FlowHub.find name st.map_ with
  | some p =>
    obtain ⟨hlt, cell, hcell, hcount⟩ := hwf.live name p hf
    have hg : FlowHub.getOrCreate name st
        = (p, Process.mk st.map_ (Function.update st.heap p
            (some { cell with use_count := cell.use_count + 1 })) st.brk) := by
      simp [FlowHub.getOrCreate, hf, Heap.retain, hcell]
    rw [hg]
    refine ⟨_, Function.update_same _ _ _, ?_⟩
    have hheap : Heap.release p (Function.update (Function.update st.heap p
          (some { cell with use_count := cell.use_count + 1 })) p
          (some { use_count := cell.use_count + 1, obj := obj1 }))
        = Function.update st.heap p (some { use_count := cell.use_count, obj := obj1 }) := by
      have hc : ¬ (cell.use_count + 1 ≤ 1) := by omega
      simp [Heap.release, hc]
    dsimp only
    rw [hheap]
    refine ⟨hwf.keys, fun m q hm => ?_, hwf.inj⟩
    obtain ⟨hq, c, hc, hc1⟩ := hwf.live m q hm
    refine ⟨hq, ?_⟩
    by_cases hqp : q = p
    · exact ⟨{ use_count := cell.use_count, obj := obj1 },
        by subst hqp; exact Function.update_same _ _ _, hcount⟩
    · exact ⟨c, by dsimp only; rw [Function.update_noteq hqp]; exact hc, hc1⟩
  | none =>
    have hg : FlowHub.getOrCreate name st
        = (st.brk, Process.mk (FlowHub.insert name st.brk st.map_)
            (Function.update st.heap st.brk (some ⟨2, {}⟩)) (st.brk + 1)) := by
      simp [FlowHub.getOrCreate, hf, Heap.retain]
    rw [hg]
    refine ⟨_, Function.update_same _ _ _, ?_⟩
    have hheap : Heap.release st.brk (Function.update (Function.update st.heap st.brk
          (some ⟨2, {}⟩)) st.brk (some { use_count := 2, obj := obj1 }))
        = Function.update st.heap st.brk (some { use_count := 1, obj := obj1 }) := by
      simp [Heap.release]
    dsimp only
    rw [hheap]
    have hfind : ∀ m q, FlowHub.find m (FlowHub.insert name st.brk st.map_) = some q →
        (m = name ∧ q = st.brk) ∨ (m ≠ name ∧ FlowHub.find m st.map_ = some q) := by
      intro m q hm
      by_cases hmn : m = name
      · rw [hmn, FlowHub.find_insert name st.brk st.map_ hf] at hm
        exact Or.inl ⟨hmn, (Option.some.inj hm).symm⟩
      · rw [FlowHub.find_insert_ne m name st.brk st.map_ (fun h => hmn h.symm)] at hm
        exact Or.inr ⟨hmn, hm⟩
    refine ⟨?_, fun m q hm => ?_, fun m1 m2 q h1 h2 => ?_⟩
    · have := FlowHub.keys_nodup_getOrCreate name st hwf.keys
      rw [hg] at this
      exact this
    · rcases hfind m q hm with ⟨_, hq⟩ | ⟨_, hm1⟩
      · rw [hq]
        exact ⟨Nat.lt_succ_self _, { use_count := 1, obj := obj1 },
          Function.update_same _ _ _, Nat.le_refl _⟩
      · obtain ⟨hq, c, hc, hc1⟩ := hwf.live m q hm1
        have hne : q ≠ st.brk := Nat.ne_of_lt hq
        exact ⟨Nat.lt_succ_of_lt hq, c,
          by dsimp only; rw [Function.update_noteq hne]; exact hc, hc1⟩
    · rcases hfind m1 q h1 with ⟨hm1, hq1⟩ | ⟨_, hf1⟩ <;>
        rcases hfind m2 q h2 with ⟨hm2, hq2⟩ | ⟨_, hf2⟩
      · rw [hm1, hm2]
      · exact absurd (hq1 ▸ (hwf.live m2 q hf2).1) (Nat.lt_irrefl _)
      · exact absurd (hq2 ▸ (hwf.live m1 q hf1).1) (Nat.lt_irrefl _)
      · exact hwf.inj m1 m2 q hf1 hf2

/-- The invariant survives `unregisterSignal`. -/
theorem Process.wf_unregisterSignal (name : String) (st : Process Cb Ty)
    (hwf : Process.WF st) : Process.WF (FlowHub.unregisterSignal name st) := by
  cases hf : FlowHub.find name st.map_ with
  | none => rw [FlowHub.unregisterSignal_not_found name st hf]; exact hwf
  | some p =>
    have hfind : ∀ m q, FlowHub.find m (FlowHub.unregisterSignal name st).map_ = some q →
        m ≠ name ∧ FlowHub.find m st.map_ = some q := by
      intro m q hm
      rw [FlowHub.map_unregisterSignal] at hm
      by_cases hmn : m = name
      · rw [hmn, FlowHub.find_eraseName_self] at hm; cases hm
      · rw [FlowHub.find_eraseName_ne m name st.map_ (fun h => hmn h.symm)] at hm
        exact ⟨hmn, hm⟩
    have hheap : (FlowHub.unregisterSignal name st).heap = Heap.release p st.heap := by
      simp [FlowHub.unregisterSignal, hf]
    have hbrk : (FlowHub.unregisterSignal name st).brk = st.brk := by
      simp [FlowHub.unregisterSignal, hf]
    refine ⟨FlowHub.keys_nodup_unregisterSignal name st hwf.keys, fun m q hm => ?_,
      fun m1 m2 q h1 h2 => hwf.inj m1 m2 q (hfind m1 q h1).2 (hfind m2 q h2).2⟩
    obtain ⟨hmn, hm1⟩ := hfind m q hm
    obtain ⟨hq, c, hc, hc1⟩ := hwf.live m q hm1
    have hqp : q ≠ p := fun h => hmn (hwf.inj m name q hm1 (h ▸ hf))
    rw [hbrk, hheap]
    refine ⟨hq, c, ?_, hc1⟩
    unfold Heap.release
    cases hp : st.heap p with
    | none => exact hc
    | some cp =>
      dsimp only
      split
      · rw [Function.update_noteq hqp]; exact hc
      · rw [Function.update_noteq hqp]; exact hc

end SignalCount

section SignalCountNames
variable {Cb Ty : Type} {Val : Ty → Type}

theorem FlowHub.keys_getOrCreate_perm (name : String) (st : Process Cb Ty) :
    ((FlowHub.getOrCreate name st).2.map_.map Prod.fst).Perm
      (if name ∈ st.map_.map Prod.fst then st.map_.map Prod.fst
        else name :: st.map_.map Prod.fst) := by
  cases hf : FlowHub.find name st.map_ with
  | some p =>
    have hmem : name ∈ st.map_.map Prod.fst :=
      (FlowHub.find_isSome_iff name st.map_).1 (by rw [hf]; rfl)
    rw [if_pos hmem]
    simp [FlowHub.getOrCreate, hf]
  | none =>
    have hmem : name ∉ st.map_.map Prod.fst := (FlowHub.find_eq_none_iff name st.map_).1 hf
    rw [if_neg hmem]
    simp only [FlowHub.getOrCreate, hf]
    exact FlowHub.keys_insert_perm name st.brk st.map_

theorem FlowHub.keys_eraseName (name : String) (m : List (String × Addr)) :
    (FlowHub.eraseName name m).map Prod.fst
      = (m.map Prod.fst).filter (fun k => decide (k ≠ name)) := by
  induction m with
  | nil => rfl
  | cons kq rest ih =>
    by_cases hk : kq.1 = name
    · have h1 : FlowHub.eraseName name (kq :: rest) = FlowHub.eraseName name rest :=
        List.filter_cons_of_neg (by simp [hk])
      rw [h1, ih, List.map_cons, List.filter_cons_of_neg (by simp [hk])]
    · have h1 : FlowHub.eraseName name (kq :: rest) = kq :: FlowHub.eraseName name rest :=
        List.filter_cons_of_pos (by simp [hk])
      rw [h1, List.map_cons, ih, List.map_cons, List.filter_cons_of_pos (by simp [hk])]

/-- The set of names that one call leaves does not depend on the order of the names. -/
theorem namesStep_perm (c : ApiCall Cb Ty Val) (acc1 acc2 : List String)
    (h : acc1.Perm acc2) : (namesStep c acc1).Perm (namesStep c acc2) := by
  unfold namesStep
  split
  · by_cases hm : c.name ∈ acc1
    · rw [if_pos hm, if_pos (h.mem_iff.1 hm)]; exact h
    · rw [if_neg hm, if_neg (fun h2 => hm (h.mem_iff.2 h2))]; exact List.Perm.cons _ h
  · exact h.filter _

end SignalCountNames

section SignalCount2
variable {Cb Ty : Type} {Val : Ty → Type} {W : Type} [DecidableEq Ty]

/-- One call of the string API returns, keeps the invariant of the process, and does to the
registered names what `namesStep` says, provided the callables leave the process alone. -/
theorem FlowBridge.step_ok
    (call : Cb → StdAny Ty Val → Process Cb Ty × W → Outcome (Process Cb Ty × W))
    (hcall : ∀ c a x, (call c a x).world.1 = x.1)
    (c : ApiCall Cb Ty Val) (st : Process Cb Ty) (w : W) (hwf : Process.WF st) :
    ∃ st1 w1, FlowBridge.step call c (st, w) = .ok (st1, w1) ∧ Process.WF st1
      ∧ (st1.map_.map Prod.fst).Perm (namesStep c (st.map_.map Prod.fst)) := by
  -- the process after `getOrCreate(name)` and the end of the statement
  have hdrop : ∀ name cell1,
      (FlowHub.getOrCreate name st).2.heap (FlowHub.getOrCreate name st).1 = some cell1 →
      Function.update (FlowHub.getOrCreate name st).2.heap (FlowHub.getOrCreate name st).1
        (some { cell1 with obj := cell1.obj }) = (FlowHub.getOrCreate name st).2.heap := by
    intro name cell1 h1
    have : (some { cell1 with obj := cell1.obj } : Option (SharedCell Cb Ty))
        = (FlowHub.getOrCreate name st).2.heap (FlowHub.getOrCreate name st).1 := h1.symm
    rw [this]
    exact Function.update_eq_self _ _
  cases c with
  | registerSignal name =>
    obtain ⟨cell0, h0, -⟩ := Process.wf_touch name st hwf {}
    obtain ⟨cell1, h1, hwf1⟩ := Process.wf_touch name st hwf cell0.obj
    have hc : cell0 = cell1 := Option.some.inj (h0.symm.trans h1)
    rw [hc, hdrop name cell1 h1] at hwf1
    exact ⟨_, w, rfl, hwf1, by
      simpa [namesStep, ApiCall.creates, ApiCall.name]
        using FlowHub.keys_getOrCreate_perm name st⟩
  | connect_any name slot =>
    obtain ⟨cell0, h0, -⟩ := Process.wf_touch name st hwf {}
    obtain ⟨cell1, h1, hwf1⟩ := Process.wf_touch name st hwf (cell0.obj.connect_any slot).2
    have hc : cell1 = cell0 := Option.some.inj (h1.symm.trans h0)
    rw [hc] at hwf1
    refine ⟨_, w, ?_, hwf1, by
      simpa [namesStep, ApiCall.creates, ApiCall.name]
        using FlowHub.keys_getOrCreate_perm name st⟩
    simp only [FlowBridge.step, FlowBridge.connect_any, Heap.connect_any, h0]
  | emit name data =>
    obtain ⟨cell0, h0, -⟩ := Process.wf_touch name st hwf {}
    obtain ⟨cell1, h1, hwf1⟩ := Process.wf_touch name st hwf cell0.obj
    have hc : cell0 = cell1 := Option.some.inj (h0.symm.trans h1)
    rw [hc, hdrop name cell1 h1] at hwf1
    have hframe : (cell1.obj.emit_any call data ((FlowHub.getOrCreate name st).2, w)).world.1
        = (FlowHub.getOrCreate name st).2 :=
      deliver_frame call Prod.fst hcall data cell1.obj.snapshot _
    refine ⟨_, (cell1.obj.emit_any call data ((FlowHub.getOrCreate name st).2, w)).world.2,
      ?_, hwf1, by
      simpa [namesStep, ApiCall.creates, ApiCall.name]
        using FlowHub.keys_getOrCreate_perm name st⟩
    simp only [FlowBridge.step, FlowBridge.emitWith, h1, hframe]
  | unregisterSignal name =>
    refine ⟨_, w, rfl, Process.wf_unregisterSignal name st hwf, ?_⟩
    show ((FlowHub.unregisterSignal name st).map_.map Prod.fst).Perm _
    rw [FlowHub.map_unregisterSignal, FlowHub.keys_eraseName]
    simp [namesStep, ApiCall.creates, ApiCall.name]

end SignalCount2

section SignalCountSets
variable {Cb Ty : Type} {Val : Ty → Type}

theorem namesAfter_perm (calls : List (ApiCall Cb Ty Val)) (acc1 acc2 : List String)
    (h : acc1.Perm acc2) : (namesAfter calls acc1).Perm (namesAfter calls acc2) := by
  induction calls generalizing acc1 acc2 with
  | nil => exact h
  | cons c cs ih => exact ih _ _ (namesStep_perm c acc1 acc2 h)

theorem mem_namesStep (c : ApiCall Cb Ty Val) (acc : List String) (name : String) :
    name ∈ namesStep c acc
      ↔ (c.creates = true ∧ (name ∈ acc ∨ name = c.name))
        ∨ (c.creates = false ∧ name ∈ acc ∧ name ≠ c.name) := by
  unfold namesStep
  cases hc : c.creates with
  | true =>
    by_cases hm : c.name ∈ acc
    · simp only [if_true, if_pos hm, true_and, Bool.true_eq_false, false_and, or_false]
      exact ⟨fun h => Or.inl h, fun h => h.elim id (fun heq => heq ▸ hm)⟩
    · simp only [if_true, if_neg hm, List.mem_cons, true_and, Bool.true_eq_false, false_and,
        or_false]
      exact Or.comm
  | false =>
    simp only [Bool.false_eq_true, if_false, List.mem_filter, decide_eq_true_eq, false_and,
      true_and, false_or]

theorem nodup_namesStep (c : ApiCall Cb Ty Val) (acc : List String) (h : acc.Nodup) :
    (namesStep c acc).Nodup := by
  unfold namesStep
  split
  · split
    · exact h
    · rename_i hm; exact List.nodup_cons.2 ⟨hm, h⟩
  · exact h.filter _

theorem nodup_namesAfter (calls : List (ApiCall Cb Ty Val)) (acc : List String)
    (h : acc.Nodup) : (namesAfter calls acc).Nodup := by
  induction calls generalizing acc with
  | nil => exact h
  | cons c cs ih => exact ih _ (nodup_namesStep c acc h)

/-- When no name comes back after `unregisterSignal`, the names registered in the end are
the names passed to `registerSignal`, `connect` or `emit` (or there at the start) that were
not passed to `unregisterSignal`. -/
theorem mem_namesAfter (calls : List (ApiCall Cb Ty Val)) (acc : List String)
    (hnever : neverAgain calls) (name : String) :
    name ∈ namesAfter calls acc
      ↔ (name ∈ acc ∨ name ∈ namesPassed calls) ∧ name ∉ namesUnregistered calls := by
  induction calls generalizing acc with
  | nil => simp [namesAfter, namesPassed, namesUnregistered]
  | cons c cs ih =>
    obtain ⟨hc, hcs⟩ := hnever
    rw [namesAfter, ih _ hcs, mem_namesStep]
    cases hcr : c.creates with
    | true =>
      simp only [namesPassed, namesUnregistered, hcr, if_true, List.mem_cons, true_and,
        Bool.true_eq_false, false_and, or_false]
      constructor
      · rintro ⟨(h | h) | h, hu⟩
        · exact ⟨Or.inl h, hu⟩
        · exact ⟨Or.inr (Or.inl h), hu⟩
        · exact ⟨Or.inr (Or.inr h), hu⟩
      · rintro ⟨h | h | h, hu⟩
        · exact ⟨Or.inl (Or.inl h), hu⟩
        · exact ⟨Or.inl (Or.inr h), hu⟩
        · exact ⟨Or.inr h, hu⟩
    | false =>
      have hnot := hc hcr
      simp only [namesPassed, namesUnregistered, hcr, Bool.false_eq_true, if_false,
        List.mem_cons, false_and, true_and, false_or, not_or]
      constructor
      · rintro ⟨⟨h, hne⟩ | h, hu⟩
        · exact ⟨Or.inl h, hne, hu⟩
        · exact ⟨Or.inr h, fun heq => hnot (heq ▸ h), hu⟩
      · rintro ⟨h | h, hne, hu⟩
        · exact ⟨Or.inl ⟨h, hne⟩, hu⟩
        · exact ⟨Or.inr h, hu⟩

theorem length_namesAfter (calls : List (ApiCall Cb Ty Val)) (hnever : neverAgain calls) :
    (namesAfter calls []).length = statedCount calls := by
  unfold statedCount
  apply List.Perm.length_eq
  apply (List.perm_ext_iff_of_nodup (nodup_namesAfter calls [] List.nodup_nil)
    ((List.nodup_dedup _).filter _)).2
  intro name
  rw [mem_namesAfter calls [] hnever name]
  simp [List.mem_filter, List.mem_dedup]

end SignalCountSets

section SignalCountRun
variable {Cb Ty : Type} {Val : Ty → Type} {W : Type} [DecidableEq Ty]

/-- Every sequence of calls of the string API returns (the callables leaving the process
alone), and the keys of the registry in the end are the names that `namesAfter` gives. -/
theorem FlowBridge.run_ok
    (call : Cb → StdAny Ty Val → Process Cb Ty × W → Outcome (Process Cb Ty × W))
    (hcall : ∀ c a x, (call c a x).world.1 = x.1)
    (calls : List (ApiCall Cb Ty Val)) (st : Process Cb Ty) (w : W) (hwf : Process.WF st) :
    ∃ st1 w1, FlowBridge.run call calls (st, w) = .ok (st1, w1) ∧ Process.WF st1
      ∧ (st1.map_.map Prod.fst).Perm (namesAfter calls (st.map_.map Prod.fst)) := by
  induction calls generalizing st w with
  | nil => exact ⟨st, w, rfl, hwf, List.Perm.refl _⟩
  | cons c cs ih =>
    obtain ⟨st1, w1, hstep, hwf1, hperm1⟩ := FlowBridge.step_ok call hcall c st w hwf
    obtain ⟨st2, w2, hrun, hwf2, hperm2⟩ := ih st1 w1 hwf1
    refine ⟨st2, w2, by simp only [FlowBridge.run, hstep, hrun], hwf2, ?_⟩
    exact hperm2.trans (namesAfter_perm cs _ _ hperm1)

end SignalCountRun

section SignalCountEmpty
variable {Cb Ty : Type}

/-- The empty registry of a fresh process is well formed. -/
theorem Process.wf_empty : Process.WF ({} : Process Cb Ty) :=
  ⟨List.nodup_nil, fun _ _ h => (by cases h), fun _ _ _ h => (by cases h)⟩

end SignalCountEmpty

section SignalCountClaim
variable {Cb Ty : Type} {Val : Ty → Type} {W : Type} [DecidableEq Ty]

/-- C14, as stated, fails. After `registerSignal("a")`, `unregisterSignal("a")`,
`registerSignal("a")` from an empty registry, `signalCount()` is 1, while the number of
distinct names ever passed to `registerSignal`, `connect` or `emit` minus those explicitly
unregistered is 0, whether "minus" is read on sets of names or on their numbers. -/
theorem signalCount_counts_name_registered_again :
    ∃ s, FlowBridge.run Callee.callIn registerAgain (({} : Process Callee CppType), ())
        = .ok s
      ∧ FlowBridge.signalCount s.1 = 1
      ∧ statedCount registerAgain = 0
      ∧ statedDifference registerAgain = 0 :=
  ⟨_, rfl, by decide, by decide, by decide⟩

/-- C14, amended. For every sequence of `registerSignal`, `connect`, `emit` and
`unregisterSignal` calls starting from an empty registry, with callables that leave the
process alone: every call returns, and `signalCount()` then equals the number of names that
are registered, a name being registered when it has been passed to `registerSignal`,
`connect` or `emit` and not to `unregisterSignal` since.  When no name is passed to
`registerSignal`, `connect` or `emit` again after it was passed to `unregisterSignal`, this
is the number of distinct names ever passed to `registerSignal`, `connect` or `emit` minus
those explicitly unregistered. -/
theorem signalCount_counts_registered_names
    (call : Cb → StdAny Ty Val → Process Cb Ty × W → Outcome (Process Cb Ty × W))
    (hcall : ∀ c a x, (call c a x).world.1 = x.1)
    (calls : List (ApiCall Cb Ty Val)) (w : W) :
    ∃ st1 w1, FlowBridge.run call calls (({} : Process Cb Ty), w) = .ok (st1, w1)
      ∧ FlowBridge.signalCount st1 = (namesAfter calls []).length
      ∧ (∀ name, (FlowHub.find name st1.map_).isSome = true ↔ name ∈ namesAfter calls [])
      ∧ (neverAgain calls → FlowBridge.signalCount st1 = statedCount calls) := by
  obtain ⟨st1, w1, hrun, _, hperm⟩ :=
    FlowBridge.run_ok call hcall calls ({} : Process Cb Ty) w Process.wf_empty
  have hcount : FlowBridge.signalCount st1 = (namesAfter calls []).length := by
    have := hperm.length_eq
    simpa [FlowBridge.signalCount, FlowHub.count] using this
  refine ⟨st1, w1, hrun, hcount, fun name => ?_, fun hnever => ?_⟩
  · rw [FlowHub.find_isSome_iff]
    exact hperm.mem_iff
  · rw [hcount, length_namesAfter calls hnever]

/-- Witness for C14, amended: `registerSignal("a")`, `connect_any("b", A)`, `emit("c", 42)`,
`emit("b")`, `unregisterSignal("a")`, `unregisterSignal("z")` leaves two registered
names. -/
theorem signalCount_counts_registered_names_witness :
    (∀ c a x, (Callee.callIn c a x).world.1 = x.1)
    ∧ neverAgain threeNames
    ∧ statedCount threeNames = 2
    ∧ ∃ st1 w1, FlowBridge.run Callee.callIn threeNames (({} : Process Callee CppType), ())
        = .ok (st1, w1)
      ∧ FlowBridge.signalCount st1 = 2 := by
  have hcall : ∀ c a x, (Callee.callIn c a x).world.1 = x.1 :=
    fun c _ _ => by cases c <;> rfl
  have hnever : neverAgain threeNames := by
    simp [neverAgain, threeNames, ApiCall.creates, ApiCall.name, namesPassed]
  refine ⟨hcall, hnever, by decide, ?_⟩
  obtain ⟨st1, w1, hrun, _, _, hstated⟩ :=
    signalCount_counts_registered_names Callee.callIn hcall threeNames ()
  exact ⟨st1, w1, hrun, (hstated hnever).trans (by decide)⟩

end SignalCountClaim

/-! ## After the counter has wrapped -/

section Wrapped
variable {Cb Ty : Type}

/-- The counter after `n` successive `connect_any` calls. -/
theorem FlowSignal.exec_replicate_next_id (slot : FlowSlotAny Cb Ty) (n : Nat)
    (sig : FlowSignal Cb Ty) (h : sig.next_id_ < UINT64_RANGE) :
    (FlowSignal.exec (List.replicate n (.connect_any slot)) sig).next_id_
      = (sig.next_id_ + n) % UINT64_RANGE := by
  induction n generalizing sig with
  | zero => exact (Nat.mod_eq_of_lt h).symm
  | succ n ih =>
    have hpos : 0 < UINT64_RANGE := by unfold UINT64_RANGE; positivity
    rw [List.replicate_succ, FlowSignal.exec,
      ih _ (by simp only [FlowSignal.connect_any]; exact Nat.mod_lt _ hpos)]
    simp only [FlowSignal.connect_any]
    rw [Nat.mod_add_mod]
    congr 1
    omega

/-- Successive `connect_any` calls remove no key of the map. -/
theorem FlowSignal.exec_replicate_mem (slot : FlowSlotAny Cb Ty) (n : Nat)
    (sig : FlowSignal Cb Ty) (k : ConnectionId) (hk : k ∈ sig.ids) :
    k ∈ (FlowSignal.exec (List.replicate n (.connect_any slot)) sig).ids := by
  induction n generalizing sig with
  | zero => exact hk
  | succ n ih =>
    rw [List.replicate_succ, FlowSignal.exec]
    refine ih _ ?_
    simp only [FlowSignal.ids, FlowSignal.connect_any, emplace]
    split
    · exact hk
    · rw [List.map_append]
      exact List.mem_append_left _ hk

/-- The key that `connect_any` has used is in the map afterwards. -/
theorem FlowSignal.slotAt_connect_any (slot : FlowSlotAny Cb Ty) (sig : FlowSignal Cb Ty) :
    ((sig.connect_any slot).2.slotAt (sig.connect_any slot).1).isSome = true := by
  have hmem : sig.next_id_ ∈ (emplace sig.next_id_ slot sig.slots_).map Prod.fst := by
    unfold emplace
    split
    · assumption
    · simp
  obtain ⟨kv, hkv, hk⟩ := List.mem_map.1 hmem
  have hfind : ((emplace sig.next_id_ slot sig.slots_).find?
      (fun kv => decide (kv.1 = sig.next_id_))).isSome = true :=
    List.find?_isSome.2 ⟨kv, hkv, by simpa using hk⟩
  simp only [FlowSignal.slotAt, FlowSignal.connect_any]
  cases hf : (emplace sig.next_id_ slot sig.slots_).find?
      (fun kv => decide (kv.1 = sig.next_id_)) with
  | none => rw [hf] at hfind; cases hfind
  | some v => rfl

/-- At counter value 0, `connect_any` returns the handle with identifier 0; `reset` and the
destructor of that handle leave the memory as it is, with the subscription in the map, and
`disconnect(0)` removes the subscription. -/
theorem Connection.release_at_counter_zero (h : Heap Cb Ty) (p : Addr)
    (cell : SharedCell Cb Ty) (slot : FlowSlotAny Cb Ty) (hp : h p = some cell)
    (h0 : cell.obj.next_id_ = 0) :
    ∃ h1 h2 : Heap Cb Ty,
      Heap.connect_any p slot h = .ok ({ owner_ := some p, id_ := 0 }, h1)
      ∧ Connection.reset { owner_ := some p, id_ := 0 } h1
          = .ok ({ owner_ := some p, id_ := 0 }, h1)
      ∧ Connection.destroy { owner_ := some p, id_ := 0 } h1 = .ok h1
      ∧ Heap.disconnect p 0 h1 = .ok h2
      ∧ (Heap.slotAt p 0 h1).isSome = true
      ∧ Heap.slotAt p 0 h2 = none
      ∧ h2 ≠ h1 := by
  have hfst : (cell.obj.connect_any slot).1 = 0 := h0
  have hconn : Heap.connect_any p slot h
      = .ok ({ owner_ := some p, id_ := 0 },
          Function.update h p (some { cell with obj := (cell.obj.connect_any slot).2 })) := by
    simp only [Heap.connect_any, hp, hfst]
  have hsome : (Heap.slotAt p 0 (Function.update h p
      (some { cell with obj := (cell.obj.connect_any slot).2 }))).isSome = true := by
    have hs := FlowSignal.slotAt_connect_any slot cell.obj
    rw [hfst] at hs
    simp only [Heap.slotAt, Function.update_same]
    exact hs
  have hdisc : Heap.disconnect p 0 (Function.update h p
      (some { cell with obj := (cell.obj.connect_any slot).2 }))
      = .ok (Function.update h p (some { cell with
          obj := (cell.obj.connect_any slot).2.disconnect 0 })) := by
    simp [Heap.disconnect]
  have hnone : Heap.slotAt p 0 (Function.update h p (some { cell with
      obj := (cell.obj.connect_any slot).2.disconnect 0 })) = none := by
    simp only [Heap.slotAt, Function.update_same]
    exact FlowSignal.slotAt_disconnect_self 0 _
  refine ⟨_, _, hconn, ?_, ?_, hdisc, hsome, hnone, fun heq => ?_⟩
  · simp [Connection.reset]
  · simp [Connection.destroy, Connection.reset]
  · rw [heq] at hnone
    rw [hnone] at hsome
    cases hsome

end Wrapped

section WrappedClaims

/-- C8, as stated, fails. On the dispatcher reached from a fresh one by `2 ^ 64` calls of
`connect_any(A)` the counter has wrapped and is 1, and the map holds the identifier 1.
`disconnectAll` removes it with all others, and the next `connect_any` hands out 1 again:
an identifier that was removed. -/
theorem connect_after_disconnectAll_reissues_after_wrap :
    (FlowSignal.exec connectUntilWrap ({} : FlowSignal Callee CppType)).next_id_ = 1
    ∧ (1 : ConnectionId) ∈ (FlowSignal.exec connectUntilWrap ({} : FlowSignal Callee CppType)).ids
    ∧ (FlowSignal.exec connectUntilWrap ({} : FlowSignal Callee CppType)).disconnectAll.slots_
        = []
    ∧ ((FlowSignal.exec connectUntilWrap
          ({} : FlowSignal Callee CppType)).disconnectAll.connect_any (.any .B)).1 = 1
    ∧ ((FlowSignal.exec connectUntilWrap
          ({} : FlowSignal Callee CppType)).disconnectAll.connect_any (.any .B)).1
        ∈ (FlowSignal.exec connectUntilWrap ({} : FlowSignal Callee CppType)).ids := by
  have hnext : (FlowSignal.exec connectUntilWrap ({} : FlowSignal Callee CppType)).next_id_
      = 1 := by
    unfold connectUntilWrap
    rw [FlowSignal.exec_replicate_next_id _ _ _ (by unfold UINT64_RANGE; norm_num)]
    show (1 + UINT64_RANGE) % UINT64_RANGE = 1
    unfold UINT64_RANGE
    norm_num
  have hmem : (1 : ConnectionId)
      ∈ (FlowSignal.exec connectUntilWrap ({} : FlowSignal Callee CppType)).ids := by
    have hsucc : UINT64_RANGE = (UINT64_RANGE - 1) + 1 := by unfold UINT64_RANGE; norm_num
    unfold connectUntilWrap
    rw [hsucc, List.replicate_succ, FlowSignal.exec]
    exact FlowSignal.exec_replicate_mem _ _ _ 1 (by decide)
  have hconn : ((FlowSignal.exec connectUntilWrap
      ({} : FlowSignal Callee CppType)).disconnectAll.connect_any (.any .B)).1 = 1 := by
    simp only [FlowSignal.connect_any, FlowSignal.disconnectAll, hnext]
  refine ⟨hnext, hmem, rfl, hconn, ?_⟩
  rw [hconn]
  exact hmem

/-- C10, as stated, fails. On the dispatcher reached from a fresh one by `2 ^ 64 - 1` calls of
`connect_any(A)` the counter is 0, so `connect_any(B)` returns the handle with identifier 0.
Releasing this handle, by `reset` or by its destructor, changes nothing, as the test
`owner_ && id_` fails: the subscription stays in the map.  The call `disconnect(0)` removes
it. -/
theorem release_of_identifier_zero_keeps_subscription :
    (FlowSignal.exec connectToZero ({} : FlowSignal Callee CppType)).next_id_ = 0
    ∧ ∃ h1 h2 : Heap Callee CppType,
      Heap.connect_any 1 (.any .B) counterZero = .ok ({ owner_ := some 1, id_ := 0 }, h1)
      ∧ Connection.reset { owner_ := some 1, id_ := 0 } h1
          = .ok ({ owner_ := some 1, id_ := 0 }, h1)
      ∧ Connection.destroy { owner_ := some 1, id_ := 0 } h1 = .ok h1
      ∧ Heap.disconnect 1 0 h1 = .ok h2
      ∧ (Heap.slotAt 1 0 h1).isSome = true
      ∧ Heap.slotAt 1 0 h2 = none
      ∧ h2 ≠ h1 := by
  have hnext : (FlowSignal.exec connectToZero ({} : FlowSignal Callee CppType)).next_id_
      = 0 := by
    unfold connectToZero
    rw [FlowSignal.exec_replicate_next_id _ _ _ (by unfold UINT64_RANGE; norm_num)]
    show (1 + (UINT64_RANGE - 1)) % UINT64_RANGE = 0
    unfold UINT64_RANGE
    norm_num
  have hp : counterZero 1
      = some ⟨1, FlowSignal.exec connectToZero ({} : FlowSignal Callee CppType)⟩ := by
    unfold counterZero
    exact Function.update_same _ _ _
  exact ⟨hnext, Connection.release_at_counter_zero counterZero 1 _ (.any Callee.B) hp hnext⟩

end WrappedClaims

end FlowCore
